import Mathlib

/-!
# IntelVideoEditorEncoderSource: the producer/consumer buffer chain

A shallow embedding of `videoedit/stagefrightshells/IntelVideoEditorEncoderSource.cpp`.

* Pointers are `Option Nat`: `none` is `NULL`, `some a` is the address `a`.
* The `MediaBufferChain` links live in an explicit heap; `new` and `delete` are heap
  operations, and touching a link that is not allocated is undefined behaviour, which the
  operations report as `none` (or `ReadResult.undefined`).
* `mBufferCond.wait` needs a second thread to come back from; in this sequential model a
  `read` that reaches it reports `ReadResult.waiting`.
* `mNbBuffer` is an `int32_t`; it is an `Int` here, reduced by `wrap32` after each update.
* The answers of the external `BufferShareRegistry` and of `MediaBufferGroup::acquire_buffer`
  are arguments of the operations that ask for them.
* Log statements have no effect on the object and are left out.
-/

namespace android

/-! ## Data model -/

/-- The `status_t` values the source file names. -/
inductive status_t
  | OK
  | UNKNOWN_ERROR
  | ERROR_END_OF_STREAM
  deriving DecidableEq, Repr

/-- Modelled from the spec: the `State` enumeration is declared in the class header, which is
not among the sources; the source file uses the two values `CREATED` and `STARTED`, the two
lifecycle states of the spec. -/
inductive State
  | CREATED
  | STARTED
  deriving DecidableEq, Repr

/-- Modelled from the spec: the result type of the registry calls is declared in
`IntelBufferSharing.h`, which is not among the sources; the source file only ever compares a
result with `BS_SUCCESS`, so every other value is `BS_FAILED` here. -/
inductive BufferShareStatus
  | BS_SUCCESS
  | BS_FAILED
  deriving DecidableEq, Repr

/-- One `SharedBufferType` entry: the two fields the source file reads. -/
structure SharedBufferType where
  pointer : Nat
  allocatedSize : Nat
  deriving DecidableEq, Repr

/-- What `new MediaBuffer(data, size)` wraps. -/
structure MediaBuffer where
  data : Nat
  size : Nat
  deriving DecidableEq, Repr

/-- A `MediaBufferGroup`: the buffers given to it by `add_buffer`, in that order. -/
abbrev MediaBufferGroup := List MediaBuffer

/-- One link of the chain: `buffer` is a `MediaBuffer*`, `nextLink` a `MediaBufferChain*`. -/
structure MediaBufferChain where
  buffer : Option Nat
  nextLink : Option Nat
  deriving DecidableEq, Repr

/-- The heap of links: the cell at index `a` is the link at address `a`, `none` once deleted. -/
abbrev Heap := List (Option MediaBufferChain)

namespace Heap

/-- Load through a link pointer: `none` when no link is allocated at `p`. -/
def deref (h : Heap) (p : Nat) : Option MediaBufferChain :=
  match h[p]? with
  | some (some l) => some l
  | _ => none

/-- The expression `new MediaBufferChain` followed by the initialisation of its fields: the
link is placed at an address that was never used, which is returned with the new heap. -/
def alloc (h : Heap) (l : MediaBufferChain) : Heap × Nat :=
  (h ++ [some l], h.length)

/-- The statement `delete p`: undefined when no link is allocated at `p`. -/
def free (h : Heap) (p : Nat) : Option Heap :=
  match h.deref p with
  | some _ => some (h.set p none)
  | none => none

/-- The assignment `p->nextLink = n`: undefined when no link is allocated at `p`. -/
def setNextLink (h : Heap) (p : Nat) (n : Option Nat) : Option Heap :=
  match h.deref p with
  | some l => some (h.set p (some { l with nextLink := n }))
  | none => none

end Heap

/-- Two's-complement reduction of an integer to the range of `int32_t`. -/
def wrap32 (x : Int) : Int :=
  (x + 2147483648) % 4294967296 - 2147483648

/-- The object: the link heap it allocates from, then the members in declaration order of
the constructor's initialiser list. -/
structure IntelVideoEditorEncoderSource where
  heap : Heap
  mGroup : Option MediaBufferGroup
  mUseSharedBuffers : Bool
  mFirstBufferLink : Option Nat
  mLastBufferLink : Option Nat
  mNbBuffer : Int
  mIsEOS : Bool
  mState : State
  mEncFormat : Nat
  deriving DecidableEq, Repr

/-- The answers of the registry to the three calls of `getSharedBuffers`.
`countCall` answers `sourceGetSharedBuffer(NULL, &buf_cnt)` with a status and the value it
writes to `buf_cnt`; `fetchCall` answers `sourceGetSharedBuffer(bufs, &buf_cnt)` for an array
of the given length with a status, the value it writes to `buf_cnt`, and the array contents. -/
structure SharingAnswers where
  enter : BufferShareStatus
  countCall : BufferShareStatus × Nat
  fetchCall : Nat → BufferShareStatus × Nat × List SharedBufferType

/-- What one call of `read` does. -/
inductive ReadResult
  | returned (err : status_t) (buffer : Option Nat) (s : IntelVideoEditorEncoderSource)
  | waiting
  | undefined
  deriving DecidableEq, Repr

namespace IntelVideoEditorEncoderSource

/-! ## Operations -/

/-- The constructor (lines 40-51); no link is allocated yet. -/
def Create (format : Nat) : IntelVideoEditorEncoderSource :=
  { heap := []
    mGroup := none
    mUseSharedBuffers := false
    mFirstBufferLink := none
    mLastBufferLink := none
    mNbBuffer := 0
    mIsEOS := false
    mState := State.CREATED
    mEncFormat := format }

/-- `start` (lines 61-85); `sharing` is the answer of `sourceRequestToEnableSharingMode`. -/
def start (s : IntelVideoEditorEncoderSource) (sharing : BufferShareStatus) :
    status_t × IntelVideoEditorEncoderSource :=
  if State.CREATED ≠ s.mState then
    (status_t.UNKNOWN_ERROR, s)
  else
    let s1 := { s with mState := State.STARTED }
    if sharing = BufferShareStatus.BS_SUCCESS then
      (status_t.OK, { s1 with mUseSharedBuffers := true, mGroup := none })
    else
      (status_t.UNKNOWN_ERROR, s1)

/-- The loop of `getSharedBuffers` (lines 115-118): one `add_buffer` per index below
`buf_cnt`; reading `bufs[n]` past the end of the array is undefined. -/
def addBuffers (bufs : List SharedBufferType) (buf_cnt : Nat) :
    Nat → MediaBufferGroup → Option MediaBufferGroup
  | 0, g => some g
  | k + 1, g =>
    match bufs[buf_cnt - (k + 1)]? with
    | some e => addBuffers bufs buf_cnt k (g ++ [{ data := e.pointer, size := e.allocatedSize }])
    | none => none

/-- `getSharedBuffers` (lines 87-124). -/
def getSharedBuffers (s : IntelVideoEditorEncoderSource) (r : SharingAnswers) :
    Option (status_t × IntelVideoEditorEncoderSource) :=
  if r.enter ≠ BufferShareStatus.BS_SUCCESS then
    some (status_t.UNKNOWN_ERROR, s)
  else if r.countCall.1 ≠ BufferShareStatus.BS_SUCCESS then
    some (status_t.UNKNOWN_ERROR, s)
  else
    let fetched := r.fetchCall r.countCall.2
    if fetched.1 ≠ BufferShareStatus.BS_SUCCESS then
      some (status_t.UNKNOWN_ERROR, s)
    else
      match addBuffers fetched.2.2 fetched.2.1 fetched.2.1 [] with
      | some g => some (status_t.OK, { s with mGroup := some g })
      | none => none

/-- The loop of `stop` (lines 147-152), with its heap and `mFirstBufferLink`; the local
counter `i` only feeds the log line. Every pass deletes one allocated link, so `fuel` bounds
the passes by the number of cells; a pass that finds no link at `mFirstBufferLink` is
undefined. -/
def stopLoop : Nat → Heap → Option Nat → Option Heap
  | _, h, none => some h
  | 0, _, some _ => none
  | fuel + 1, h, some p =>
    match h.deref p with
    | none => none
    | some l =>
      match h.free p with
      | none => none
      | some h1 => stopLoop fuel h1 l.nextLink

/-- `stop` (lines 127-160). -/
def stop (s : IntelVideoEditorEncoderSource) :
    Option (status_t × IntelVideoEditorEncoderSource) :=
  if State.STARTED ≠ s.mState then
    some (status_t.UNKNOWN_ERROR, s)
  else
    let s1 := if s.mUseSharedBuffers then
        { s with mGroup := none, mUseSharedBuffers := false }
      else s
    match stopLoop s1.heap.length s1.heap s1.mFirstBufferLink with
    | none => none
    | some h =>
      some (status_t.OK,
        { s1 with heap := h, mFirstBufferLink := none, mLastBufferLink := none,
                  mState := State.CREATED })

/-- `getFormat` (lines 162-166). -/
def getFormat (s : IntelVideoEditorEncoderSource) : Nat :=
  s.mEncFormat

/-- `read` (lines 168-210); `buffer` is the content of `*buffer` when the call is made, the
result carries its content when the call returns. -/
def read (s : IntelVideoEditorEncoderSource) (buffer : Option Nat) : ReadResult :=
  if State.STARTED ≠ s.mState then
    ReadResult.returned status_t.UNKNOWN_ERROR buffer s
  else if s.mFirstBufferLink = none ∧ s.mIsEOS = false then
    ReadResult.waiting
  else
    match s.mFirstBufferLink with
    | none => ReadResult.returned status_t.ERROR_END_OF_STREAM none s
    | some tmpLink =>
      match s.heap.deref tmpLink with
      | none => ReadResult.undefined
      | some l =>
        match s.heap.free tmpLink with
        | none => ReadResult.undefined
        | some h =>
          ReadResult.returned status_t.OK l.buffer
            { s with heap := h
                     mFirstBufferLink := l.nextLink
                     mLastBufferLink := if l.nextLink = none then none else s.mLastBufferLink
                     mNbBuffer := wrap32 (s.mNbBuffer - 1) }

/-- `storeBuffer` (lines 212-237): the returned `mNbBuffer` and the object afterwards. -/
def storeBuffer (s : IntelVideoEditorEncoderSource) (buffer : Option Nat) :
    Option (Int × IntelVideoEditorEncoderSource) :=
  match buffer with
  | none => some (s.mNbBuffer, { s with mIsEOS := true })
  | some b =>
    let (h1, newLink) := s.heap.alloc { buffer := some b, nextLink := none }
    match s.mLastBufferLink with
    | some last =>
      match h1.setNextLink last (some newLink) with
      | none => none
      | some h2 =>
        some (wrap32 (s.mNbBuffer + 1),
          { s with heap := h2, mLastBufferLink := some newLink,
                   mNbBuffer := wrap32 (s.mNbBuffer + 1) })
    | none =>
      some (wrap32 (s.mNbBuffer + 1),
        { s with heap := h1, mFirstBufferLink := some newLink, mLastBufferLink := some newLink,
                 mNbBuffer := wrap32 (s.mNbBuffer + 1) })

/-- `requestBuffer` (lines 239-264): `r` answers the registry calls of `getSharedBuffers`,
`acquire` is what `mGroup->acquire_buffer(buffer)` returns and writes to `*buffer`; the
result is the returned status, the content of `*buffer` and the object afterwards. -/
def requestBuffer (s : IntelVideoEditorEncoderSource) (r : SharingAnswers)
    (acquire : MediaBufferGroup → status_t × Option MediaBuffer) (buffer : Option MediaBuffer) :
    Option (status_t × Option MediaBuffer × IntelVideoEditorEncoderSource) :=
  let afterSetup : Option (status_t × IntelVideoEditorEncoderSource) :=
    if s.mGroup = none ∧ s.mUseSharedBuffers = true then getSharedBuffers s r
    else some (status_t.OK, s)
  match afterSetup with
  | none => none
  | some (err, s1) =>
    if err ≠ status_t.OK then some (err, buffer, s1)
    else
      match s1.mGroup with
      | none => some (status_t.UNKNOWN_ERROR, buffer, s1)
      | some g =>
        let a := acquire g
        if a.1 ≠ status_t.OK then some (status_t.UNKNOWN_ERROR, a.2, s1)
        else some (a.1, a.2, s1)

/-! ## The chain as a sequence, and runs of calls -/

/-- The address of the first of the given cells; a cell is an address with the buffer of
the link that lives there. -/
def firstOf (cells : List (Nat × Nat)) : Option Nat :=
  (cells.head?).map Prod.fst

/-- The address of the last of the given cells. -/
def lastOf (cells : List (Nat × Nat)) : Option Nat :=
  (cells.getLast?).map Prod.fst

/-- Every cell is an allocated link with the cell's buffer whose `nextLink` is the address
of the cell after it, `NULL` for the last one. -/
def linked (h : Heap) : List (Nat × Nat) → Prop
  | [] => True
  | c :: rest => h.deref c.1 = some { buffer := some c.2, nextLink := firstOf rest } ∧
      linked h rest

/-- Decision procedure for `linked`. -/
instance linkedDecidable (h : Heap) : (cells : List (Nat × Nat)) → Decidable (linked h cells)
  | [] => isTrue trivial
  | c :: rest =>
    match linkedDecidable h rest with
    | isTrue hr =>
      if hd : h.deref c.1 = some { buffer := some c.2, nextLink := firstOf rest } then
        isTrue ⟨hd, hr⟩
      else isFalse (fun hc => hd hc.1)
    | isFalse hr => isFalse (fun hc => hr hc.2)

/-- The chain of `s` holds exactly `cells`, in this order: `mFirstBufferLink` points to the
first, `mLastBufferLink` to the last, the links are chained through `nextLink`, and no
address occurs twice. -/
def Holds (s : IntelVideoEditorEncoderSource) (cells : List (Nat × Nat)) : Prop :=
  s.mFirstBufferLink = firstOf cells ∧ s.mLastBufferLink = lastOf cells ∧
    linked s.heap cells ∧ (cells.map Prod.fst).Nodup

/-- Decision procedure for `Holds`. -/
instance holdsDecidable (s : IntelVideoEditorEncoderSource) (cells : List (Nat × Nat)) :
    Decidable (Holds s cells) := by
  unfold Holds
  infer_instance

/-- The calls `storeBuffer(b)` for the given non-null buffers, one after the other. -/
def storeAll (s : IntelVideoEditorEncoderSource) :
    List Nat → Option IntelVideoEditorEncoderSource
  | [] => some s
  | b :: bs =>
    match s.storeBuffer (some b) with
    | some r => storeAll r.2 bs
    | none => none

/-- The given number of `read` calls, one after the other, all through the same variable
`buffer` of the caller: the returned statuses and buffers in order and the object afterwards,
as long as every call returns. -/
def readN : Nat → IntelVideoEditorEncoderSource → Option Nat →
    Option (List (status_t × Option Nat) × IntelVideoEditorEncoderSource)
  | 0, s, _ => some ([], s)
  | n + 1, s, buffer =>
    match s.read buffer with
    | ReadResult.returned err buffer1 s1 =>
      match readN n s1 buffer1 with
      | some (rs, s2) => some ((err, buffer1) :: rs, s2)
      | none => none
    | _ => none

/-- A call on the object, with the answer of the registry where the call asks for one. -/
inductive Call
  | start (sharing : BufferShareStatus)
  | stop
  | storeBuffer (buffer : Option Nat)
  | read (buffer : Option Nat)
  deriving DecidableEq, Repr

/-- The object after one call. A `read` that waits has changed nothing when another call is
made; a call with undefined behaviour has no successor. -/
def step (s : IntelVideoEditorEncoderSource) : Call → Option IntelVideoEditorEncoderSource
  | Call.start sharing => some (s.start sharing).2
  | Call.stop => (s.stop).map Prod.snd
  | Call.storeBuffer buffer => (s.storeBuffer buffer).map Prod.snd
  | Call.read buffer =>
    match s.read buffer with
    | ReadResult.returned _ _ s1 => some s1
    | ReadResult.waiting => some s
    | ReadResult.undefined => none

/-- The object after a sequence of calls. -/
def run (s : IntelVideoEditorEncoderSource) : List Call → Option IntelVideoEditorEncoderSource
  | [] => some s
  | c :: cs =>
    match step s c with
    | some s1 => run s1 cs
    | none => none

/-- The states a freshly constructed object can be brought to by calls. -/
def Reachable (s : IntelVideoEditorEncoderSource) : Prop :=
  ∃ format calls, run (Create format) calls = some s

/-- The fields of the object that neither `storeBuffer` nor `read` writes. -/
def SameSession (s s1 : IntelVideoEditorEncoderSource) : Prop :=
  s1.mState = s.mState ∧ s1.mGroup = s.mGroup ∧ s1.mUseSharedBuffers = s.mUseSharedBuffers ∧
    s1.mEncFormat = s.mEncFormat

/-- A started object with shared mode on whose chain holds the buffers 10 and 20. -/
def twoQueued : IntelVideoEditorEncoderSource :=
  { heap := [some { buffer := some 10, nextLink := some 1 },
             some { buffer := some 20, nextLink := none }]
    mGroup := none
    mUseSharedBuffers := true
    mFirstBufferLink := some 0
    mLastBufferLink := some 1
    mNbBuffer := 2
    mIsEOS := false
    mState := State.STARTED
    mEncFormat := 0 }

/-- The object `twoQueued` before it was started. -/
def twoQueuedCreated : IntelVideoEditorEncoderSource :=
  { twoQueued with mState := State.CREATED, mUseSharedBuffers := false }

/-- A request to the object: one of the queue calls, or `requestBuffer` with the answers of
the registry, the behaviour of `acquire_buffer` and the content of `*buffer`. -/
inductive Request
  | queue (c : Call)
  | requestBuffer (r : SharingAnswers)
      (acquire : MediaBufferGroup → status_t × Option MediaBuffer) (buffer : Option MediaBuffer)

/-- The object after one request. -/
def serve (s : IntelVideoEditorEncoderSource) : Request → Option IntelVideoEditorEncoderSource
  | Request.queue c => step s c
  | Request.requestBuffer r acquire buffer =>
    (s.requestBuffer r acquire buffer).map (fun x => x.2.2)

/-- The object after a sequence of requests. -/
def serveAll (s : IntelVideoEditorEncoderSource) :
    List Request → Option IntelVideoEditorEncoderSource
  | [] => some s
  | q :: qs =>
    match serve s q with
    | some s1 => serveAll s1 qs
    | none => none

/-- No `start` among the requests, made one after the other from `s`, returns `OK`. -/
def noStartReturnsOK (s : IntelVideoEditorEncoderSource) : List Request → Bool
  | [] => true
  | q :: qs =>
    (match q with
      | Request.queue (Call.start sharing) => decide ((s.start sharing).1 ≠ status_t.OK)
      | _ => true) &&
    (match serve s q with
      | some s1 => noStartReturnsOK s1 qs
      | none => true)

/-- The pool is not materialised and shared mode is off. -/
def PoolReleased (s : IntelVideoEditorEncoderSource) : Prop :=
  s.mGroup = none ∧ s.mUseSharedBuffers = false

/-- A materialised pool goes with shared mode. -/
def PoolShared (s : IntelVideoEditorEncoderSource) : Prop :=
  s.mGroup ≠ none → s.mUseSharedBuffers = true

/-- The wrapper `new MediaBuffer(e.pointer, e.allocatedSize)` of a registry entry. -/
def wrapShared (e : SharedBufferType) : MediaBuffer :=
  { data := e.pointer, size := e.allocatedSize }

/-- The pool the spec describes for registry answers `r`: one wrapper per entry the registry
reports, in the registry's order, with the entry's address and size. -/
def reportedPool (r : SharingAnswers) : MediaBufferGroup :=
  ((r.fetchCall r.countCall.2).2.2.take (r.fetchCall r.countCall.2).2.1).map wrapShared

/-- Sample registry answers: every call succeeds and two regions are reported. -/
def twoRegions : SharingAnswers :=
  { enter := BufferShareStatus.BS_SUCCESS
    countCall := (BufferShareStatus.BS_SUCCESS, 2)
    fetchCall := fun _ => (BufferShareStatus.BS_SUCCESS, 2,
      [{ pointer := 4096, allocatedSize := 512 }, { pointer := 8192, allocatedSize := 256 }]) }

/-- Sample registry answers: entering sharing mode works, the count query fails. -/
def countRefused : SharingAnswers :=
  { enter := BufferShareStatus.BS_SUCCESS
    countCall := (BufferShareStatus.BS_FAILED, 0)
    fetchCall := fun _ => (BufferShareStatus.BS_FAILED, 0, []) }

/-- Sample behaviour of `acquire_buffer`: hand out the first buffer of the group. -/
def acquireFirst (g : MediaBufferGroup) : status_t × Option MediaBuffer :=
  match g.head? with
  | some b => (status_t.OK, some b)
  | none => (status_t.UNKNOWN_ERROR, none)

/-- A freshly constructed object after a granted `start`. -/
def justStarted : IntelVideoEditorEncoderSource :=
  ((Create 0).start BufferShareStatus.BS_SUCCESS).2

/-- The object after `start`, `storeBuffer(10)`, `stop`, `start` and `storeBuffer(20)`, the
registry granting sharing mode both times. -/
def restartedOne : IntelVideoEditorEncoderSource :=
  { heap := [none, some { buffer := some 20, nextLink := none }]
    mGroup := none
    mUseSharedBuffers := true
    mFirstBufferLink := some 1
    mLastBufferLink := some 1
    mNbBuffer := 2
    mIsEOS := false
    mState := State.STARTED
    mEncFormat := 0 }

/-- The object after a granted `start`, a `requestBuffer` answered by `twoRegions` and
`storeBuffer(10)`. -/
def pooledOne : IntelVideoEditorEncoderSource :=
  { heap := [some { buffer := some 10, nextLink := none }]
    mGroup := some [{ data := 4096, size := 512 }, { data := 8192, size := 256 }]
    mUseSharedBuffers := true
    mFirstBufferLink := some 0
    mLastBufferLink := some 0
    mNbBuffer := 1
    mIsEOS := false
    mState := State.STARTED
    mEncFormat := 0 }

/-- The object `pooledOne` after `stop`. -/
def pooledOneStopped : IntelVideoEditorEncoderSource :=
  { heap := [none]
    mGroup := none
    mUseSharedBuffers := false
    mFirstBufferLink := none
    mLastBufferLink := none
    mNbBuffer := 1
    mIsEOS := false
    mState := State.CREATED
    mEncFormat := 0 }

/-! ## The heap -/

theorem Heap.deref_lt {h : Heap} {p : Nat} {l : MediaBufferChain}
    (hd : h.deref p = some l) : p < h.length := by
  by_contra hlt
  have hnone : h[p]? = none := List.getElem?_eq_none (Nat.le_of_not_lt hlt)
  simp [Heap.deref, hnone] at hd

theorem Heap.deref_set_ne (h : Heap) {a p : Nat} (v : Option MediaBufferChain)
    (hne : a ≠ p) : Heap.deref (h.set a v) p = h.deref p := by
  simp [Heap.deref, List.getElem?_set_ne hne]

theorem Heap.deref_set_self (h : Heap) {a : Nat} (l : MediaBufferChain)
    (hlt : a < h.length) : Heap.deref (h.set a (some l)) a = some l := by
  simp [Heap.deref, List.getElem?_set, hlt]

theorem Heap.deref_append_of_lt (h x : Heap) {p : Nat} (hlt : p < h.length) :
    Heap.deref (h ++ x) p = h.deref p := by
  simp [Heap.deref, List.getElem?_append_left hlt]

theorem Heap.deref_append_length (h : Heap) (l : MediaBufferChain) :
    Heap.deref (h ++ [some l]) h.length = some l := by
  simp [Heap.deref]

/-! ## The chain under the heap operations -/

theorem firstOf_append_cons (cells : List (Nat × Nat)) (c : Nat × Nat)
    (more : List (Nat × Nat)) (x : Nat × Nat) :
    firstOf (cells ++ c :: more ++ [x]) = firstOf (cells ++ c :: more) := by
  cases cells <;> simp [firstOf]

theorem lastOf_cons_of_ne_nil (c : Nat × Nat) {rest : List (Nat × Nat)} (hne : rest ≠ []) :
    lastOf (c :: rest) = lastOf rest := by
  cases rest with
  | nil => exact absurd rfl hne
  | cons d rest => simp [lastOf, List.getLast?_cons_cons]

theorem lastOf_snoc (cells : List (Nat × Nat)) (x : Nat × Nat) :
    lastOf (cells ++ [x]) = some x.1 := by
  simp [lastOf]

theorem firstOf_eq_none_iff (cells : List (Nat × Nat)) : firstOf cells = none ↔ cells = [] := by
  cases cells <;> simp [firstOf]

/-- Every address of a linked sequence is inside the heap. -/
theorem linked_addr_lt {h : Heap} {cells : List (Nat × Nat)} (hl : linked h cells)
    {a : Nat} (ha : a ∈ cells.map Prod.fst) : a < h.length := by
  induction cells with
  | nil => simp at ha
  | cons c rest ih =>
    rw [List.map_cons, List.mem_cons] at ha
    rcases ha with hac | har
    · subst hac
      exact Heap.deref_lt hl.1
    · exact ih hl.2 har

/-- Writing a cell outside the sequence leaves it linked. -/
theorem linked_set {h : Heap} {cells : List (Nat × Nat)} (hl : linked h cells) {a : Nat}
    (v : Option MediaBufferChain) (ha : a ∉ cells.map Prod.fst) :
    linked (h.set a v) cells := by
  induction cells with
  | nil => trivial
  | cons c rest ih =>
    have hne : a ≠ c.1 := fun e => ha (by simp [e])
    have hrest : a ∉ rest.map Prod.fst := fun m => ha (by simp at m ⊢; exact Or.inr m)
    exact ⟨by rw [Heap.deref_set_ne h v hne]; exact hl.1, ih hl.2 hrest⟩

/-- Allocating leaves the sequence linked. -/
theorem linked_append {h : Heap} {cells : List (Nat × Nat)} (hl : linked h cells) (x : Heap) :
    linked (h ++ x) cells := by
  induction cells with
  | nil => trivial
  | cons c rest ih =>
    exact ⟨by rw [Heap.deref_append_of_lt h x (Heap.deref_lt hl.1)]; exact hl.1, ih hl.2⟩

/-- Linking a new last cell: after `last->nextLink = n`, where `n` is an allocated link
outside the sequence that holds `b` and has no successor, the sequence is linked with one
more cell at its end. -/
theorem linked_snoc {h : Heap} (cells : List (Nat × Nat)) (c : Nat × Nat) (n b : Nat)
    (hl : linked h (cells ++ [c])) (hnd : ((cells ++ [c]).map Prod.fst).Nodup)
    (hn : n ∉ (cells ++ [c]).map Prod.fst)
    (hnew : h.deref n = some { buffer := some b, nextLink := none }) :
    linked (h.set c.1 (some { buffer := some c.2, nextLink := some n }))
      (cells ++ [c] ++ [(n, b)]) := by
  induction cells with
  | nil =>
    have hne : c.1 ≠ n := fun e => hn (by simp [e])
    refine ⟨?_, ?_, trivial⟩
    · simpa [firstOf] using Heap.deref_set_self h _ (Heap.deref_lt hl.1)
    · rw [Heap.deref_set_ne h _ hne]
      simpa [firstOf] using hnew
  | cons d rest ih =>
    have hnd1 : d.1 ∉ (rest ++ [c]).map Prod.fst ∧ ((rest ++ [c]).map Prod.fst).Nodup :=
      List.nodup_cons.mp (by simpa using hnd)
    have hne : c.1 ≠ d.1 := fun e => hnd1.1 (by simp [e])
    have hn1 : n ∉ (rest ++ [c]).map Prod.fst := fun m => hn (by simp at m ⊢; exact Or.inr m)
    refine ⟨?_, ih hl.2 hnd1.2 hn1⟩
    rw [Heap.deref_set_ne h _ hne]
    have hfirst : firstOf (rest ++ [c] ++ [(n, b)]) = firstOf (rest ++ [c]) := by
      simpa using firstOf_append_cons rest c [] (n, b)
    show h.deref d.1 = some { buffer := some d.2, nextLink := firstOf (rest ++ [c] ++ [(n, b)]) }
    rw [hfirst]
    exact hl.1

/-- The last cell of a linked sequence has no successor. -/
theorem linked_last {h : Heap} (cells : List (Nat × Nat)) (c : Nat × Nat)
    (hl : linked h (cells ++ [c])) :
    h.deref c.1 = some { buffer := some c.2, nextLink := none } := by
  induction cells with
  | nil => simpa [firstOf] using hl.1
  | cons d rest ih => exact ih hl.2

/-! ## The operations on a well-formed chain -/

/-- `storeBuffer(b)` on a chain holding `cells`: the new link goes to the end. -/
theorem storeBuffer_some_holds (s : IntelVideoEditorEncoderSource) (cells : List (Nat × Nat))
    (b : Nat) (hh : Holds s cells) :
    ∃ s1, s.storeBuffer (some b) = some (wrap32 (s.mNbBuffer + 1), s1) ∧
      Holds s1 (cells ++ [(s.heap.length, b)]) ∧ s1.mNbBuffer = wrap32 (s.mNbBuffer + 1) ∧
      s1.mIsEOS = s.mIsEOS ∧ SameSession s s1 := by
  obtain ⟨hfirst, hlast, hlink, hnd⟩ := hh
  have hfresh : s.heap.length ∉ cells.map Prod.fst := fun m =>
    Nat.lt_irrefl _ (linked_addr_lt hlink m)
  rcases List.eq_nil_or_concat cells with hnil | ⟨L, c, hc⟩
  · subst hnil
    have hl : s.mLastBufferLink = none := by simpa [lastOf] using hlast
    refine ⟨{ s with heap := s.heap ++ [some { buffer := some b, nextLink := none }]
                     mFirstBufferLink := some s.heap.length
                     mLastBufferLink := some s.heap.length
                     mNbBuffer := wrap32 (s.mNbBuffer + 1) },
      by simp [storeBuffer, Heap.alloc, hl], ?_, rfl, rfl, rfl, rfl, rfl, rfl⟩
    refine ⟨by simp [firstOf], by simp [lastOf], ⟨?_, trivial⟩, by simp⟩
    simpa [firstOf] using Heap.deref_append_length s.heap { buffer := some b, nextLink := none }
  · rw [List.concat_eq_append] at hc
    subst hc
    have hl : s.mLastBufferLink = some c.1 := by rw [hlast]; exact lastOf_snoc L c
    have hclt : c.1 < s.heap.length := linked_addr_lt hlink (by simp)
    have hcd : Heap.deref (s.heap ++ [some { buffer := some b, nextLink := none }]) c.1 =
        some { buffer := some c.2, nextLink := none } := by
      rw [Heap.deref_append_of_lt _ _ hclt]
      exact linked_last L c hlink
    refine ⟨{ s with heap := List.set (s.heap ++ [some { buffer := some b, nextLink := none }])
                       c.1 (some { buffer := some c.2, nextLink := some s.heap.length })
                     mLastBufferLink := some s.heap.length
                     mNbBuffer := wrap32 (s.mNbBuffer + 1) },
      by simp [storeBuffer, Heap.alloc, hl, Heap.setNextLink, hcd], ?_,
      rfl, rfl, rfl, rfl, rfl, rfl⟩
    refine ⟨?_, ?_, ?_, ?_⟩
    · show s.mFirstBufferLink = firstOf (L ++ [c] ++ [(s.heap.length, b)])
      rw [hfirst]
      simpa using (firstOf_append_cons L c [] (s.heap.length, b)).symm
    · exact (lastOf_snoc (L ++ [c]) (s.heap.length, b)).symm
    · exact linked_snoc L c s.heap.length b (linked_append hlink _) hnd hfresh
        (Heap.deref_append_length s.heap _)
    · rw [List.map_append]
      refine List.Nodup.append hnd (by simp) ?_
      intro a ha hb
      have hb1 : a = s.heap.length := by simpa using hb
      exact hfresh (hb1 ▸ ha)

/-- `storeBuffer(NULL)` sets the flag and nothing else, in every state. -/
theorem storeBuffer_none_eq (s : IntelVideoEditorEncoderSource) :
    s.storeBuffer none = some (s.mNbBuffer, { s with mIsEOS := true }) := rfl

/-- `read` outside `STARTED` returns `UNKNOWN_ERROR` and writes nothing. -/
theorem read_of_not_started (s : IntelVideoEditorEncoderSource) (buffer : Option Nat)
    (hs : s.mState ≠ State.STARTED) :
    s.read buffer = ReadResult.returned status_t.UNKNOWN_ERROR buffer s := by
  have hs1 : State.STARTED ≠ s.mState := fun e => hs e.symm
  simp [read, hs1]

/-- `read` on a started, non-empty chain: the first link is taken off. -/
theorem read_cons_holds (s : IntelVideoEditorEncoderSource) (c : Nat × Nat)
    (rest : List (Nat × Nat)) (buffer : Option Nat) (hs : s.mState = State.STARTED)
    (hh : Holds s (c :: rest)) :
    ∃ s1, s.read buffer = ReadResult.returned status_t.OK (some c.2) s1 ∧ Holds s1 rest ∧
      s1.mNbBuffer = wrap32 (s.mNbBuffer - 1) ∧ s1.mIsEOS = s.mIsEOS ∧ SameSession s s1 := by
  obtain ⟨hfirst, hlast, hlink, hnd⟩ := hh
  have hf : s.mFirstBufferLink = some c.1 := by simpa [firstOf] using hfirst
  have hnd1 : c.1 ∉ rest.map Prod.fst ∧ (rest.map Prod.fst).Nodup :=
    List.nodup_cons.mp (by simpa using hnd)
  refine ⟨{ s with heap := List.set s.heap c.1 none
                   mFirstBufferLink := firstOf rest
                   mLastBufferLink := if firstOf rest = none then none else s.mLastBufferLink
                   mNbBuffer := wrap32 (s.mNbBuffer - 1) },
    by simp [read, hs, hf, hlink.1, Heap.free], ?_, rfl, rfl, rfl, rfl, rfl, rfl⟩
  refine ⟨rfl, ?_, linked_set hlink.2 none hnd1.1, hnd1.2⟩
  show (if firstOf rest = none then none else s.mLastBufferLink) = lastOf rest
  by_cases hr : rest = []
  · subst hr
    simp [firstOf, lastOf]
  · have hne : firstOf rest ≠ none := fun e => hr ((firstOf_eq_none_iff rest).mp e)
    rw [if_neg hne, hlast]
    exact lastOf_cons_of_ne_nil c hr

/-- `read` on a started, empty chain after end-of-stream. -/
theorem read_end_of_stream (s : IntelVideoEditorEncoderSource) (buffer : Option Nat)
    (hs : s.mState = State.STARTED) (hf : s.mFirstBufferLink = none) (he : s.mIsEOS = true) :
    s.read buffer = ReadResult.returned status_t.ERROR_END_OF_STREAM none s := by
  simp [read, hs, hf, he]

/-- `read` on a started, empty chain before end-of-stream. -/
theorem read_waiting (s : IntelVideoEditorEncoderSource) (buffer : Option Nat)
    (hs : s.mState = State.STARTED) (hf : s.mFirstBufferLink = none) (he : s.mIsEOS = false) :
    s.read buffer = ReadResult.waiting := by
  simp [read, hs, hf, he]

theorem SameSession.trans {s s1 s2 : IntelVideoEditorEncoderSource}
    (h1 : SameSession s s1) (h2 : SameSession s1 s2) : SameSession s s2 :=
  ⟨h2.1.trans h1.1, h2.2.1.trans h1.2.1, h2.2.2.1.trans h1.2.2.1, h2.2.2.2.trans h1.2.2.2⟩

/-- A run of `storeBuffer` calls appends its buffers to the chain, in the order of the calls. -/
theorem storeAll_holds (bs : List Nat) (s : IntelVideoEditorEncoderSource)
    (cells : List (Nat × Nat)) (hh : Holds s cells) :
    ∃ s1 more, storeAll s bs = some s1 ∧ Holds s1 (cells ++ more) ∧ more.map Prod.snd = bs ∧
      s1.mIsEOS = s.mIsEOS ∧ SameSession s s1 := by
  induction bs generalizing s cells with
  | nil => exact ⟨s, [], rfl, by simpa using hh, rfl, rfl, rfl, rfl, rfl, rfl⟩
  | cons b bs ih =>
    obtain ⟨s1, hst, hh1, -, he1, hsame1⟩ := storeBuffer_some_holds s cells b hh
    obtain ⟨s2, more, hall, hh2, hmore, he2, hsame2⟩ := ih s1 _ hh1
    refine ⟨s2, (s.heap.length, b) :: more, by simp [storeAll, hst, hall], ?_, by simp [hmore],
      he2.trans he1, hsame1.trans hsame2⟩
    simpa using hh2

/-- As many `read` calls as the chain holds cells return the buffers in chain order and
leave the chain empty. -/
theorem readN_holds (cells : List (Nat × Nat)) (s : IntelVideoEditorEncoderSource)
    (buffer : Option Nat) (hs : s.mState = State.STARTED) (hh : Holds s cells) :
    ∃ s1, readN cells.length s buffer =
        some (cells.map (fun c => (status_t.OK, some c.2)), s1) ∧
      Holds s1 [] ∧ s1.mIsEOS = s.mIsEOS ∧ SameSession s s1 := by
  induction cells generalizing s buffer with
  | nil => exact ⟨s, rfl, hh, rfl, rfl, rfl, rfl, rfl⟩
  | cons c rest ih =>
    obtain ⟨s1, hrd, hh1, -, he1, hsame1⟩ := read_cons_holds s c rest buffer hs hh
    obtain ⟨s2, hall, hh2, he2, hsame2⟩ := ih s1 (some c.2) (hsame1.1.trans hs) hh1
    exact ⟨s2, by simp [readN, hrd, hall], hh2, he2.trans he1, hsame1.trans hsame2⟩

/-- After end-of-stream, one `read` more than the chain holds cells returns the buffers in
chain order and then `ERROR_END_OF_STREAM` with `*buffer` set to `NULL`. -/
theorem readN_end_of_stream (cells : List (Nat × Nat)) (s : IntelVideoEditorEncoderSource)
    (buffer : Option Nat) (hs : s.mState = State.STARTED) (hh : Holds s cells)
    (he : s.mIsEOS = true) :
    ∃ s1, readN (cells.length + 1) s buffer =
      some (cells.map (fun c => (status_t.OK, some c.2)) ++
        [(status_t.ERROR_END_OF_STREAM, none)], s1) := by
  induction cells generalizing s buffer with
  | nil =>
    have hf : s.mFirstBufferLink = none := by simpa [firstOf] using hh.1
    exact ⟨s, by simp [readN, read_end_of_stream s buffer hs hf he]⟩
  | cons c rest ih =>
    obtain ⟨s1, hrd, hh1, -, he1, hsame1⟩ := read_cons_holds s c rest buffer hs hh
    obtain ⟨s2, hall⟩ := ih s1 (some c.2) (hsame1.1.trans hs) hh1 (he1.trans he)
    refine ⟨s2, ?_⟩
    show readN (rest.length + 1 + 1) s buffer = _
    rw [readN, hrd]
    simp only [hall, List.map_cons, List.cons_append]

/-- A sequence without repeated addresses that lies inside the heap is no longer than it. -/
theorem length_le_of_nodup_lt {l : List Nat} {n : Nat} (hnd : l.Nodup)
    (hlt : ∀ a ∈ l, a < n) : l.length ≤ n := by
  have hsub : l.toFinset ⊆ Finset.range n := fun a ha =>
    Finset.mem_range.mpr (hlt a (List.mem_toFinset.mp ha))
  have hcard := Finset.card_le_card hsub
  rwa [List.toFinset_card_of_nodup hnd, Finset.card_range] at hcard

/-- The loop of `stop` ends on a linked sequence as soon as the fuel covers its length. -/
theorem stopLoop_linked (cells : List (Nat × Nat)) (h : Heap) (fuel : Nat)
    (hl : linked h cells) (hnd : (cells.map Prod.fst).Nodup) (hfuel : cells.length ≤ fuel) :
    ∃ h1, stopLoop fuel h (firstOf cells) = some h1 := by
  induction cells generalizing h fuel with
  | nil => exact ⟨h, by cases fuel <;> rfl⟩
  | cons c rest ih =>
    cases fuel with
    | zero => simp at hfuel
    | succ fuel =>
      have hnd1 : c.1 ∉ rest.map Prod.fst ∧ (rest.map Prod.fst).Nodup :=
        List.nodup_cons.mp (by simpa using hnd)
      obtain ⟨h1, hloop⟩ := ih (h.set c.1 none) fuel (linked_set hl.2 none hnd1.1) hnd1.2
        (by simpa using hfuel)
      refine ⟨h1, ?_⟩
      show stopLoop (fuel + 1) h (some c.1) = some h1
      simp only [stopLoop, hl.1, Heap.free]
      exact hloop

/-- `stop` on a started, well-formed chain returns `OK`; it writes neither `mNbBuffer` nor
`mIsEOS`. -/
theorem stop_holds (s : IntelVideoEditorEncoderSource) (cells : List (Nat × Nat))
    (hs : s.mState = State.STARTED) (hh : Holds s cells) :
    ∃ s1, s.stop = some (status_t.OK, s1) ∧ Holds s1 [] ∧ s1.mState = State.CREATED ∧
      s1.mNbBuffer = s.mNbBuffer ∧ s1.mIsEOS = s.mIsEOS ∧ s1.mUseSharedBuffers = false ∧
      s1.mGroup = (if s.mUseSharedBuffers then none else s.mGroup) ∧
      s1.mEncFormat = s.mEncFormat := by
  obtain ⟨hfirst, -, hlink, hnd⟩ := hh
  have hlen : cells.length ≤ s.heap.length := by
    have := length_le_of_nodup_lt hnd (fun a ha => linked_addr_lt hlink ha)
    simpa using this
  obtain ⟨h1, hloop⟩ := stopLoop_linked cells s.heap s.heap.length hlink hnd hlen
  rw [← hfirst] at hloop
  cases hu : s.mUseSharedBuffers
  · exact ⟨{ s with heap := h1, mFirstBufferLink := none, mLastBufferLink := none,
                    mState := State.CREATED },
      by simp [stop, hs, hu, hloop], ⟨rfl, rfl, trivial, by simp⟩, rfl, rfl, rfl, hu,
      by simp, rfl⟩
  · exact ⟨{ s with heap := h1, mFirstBufferLink := none, mLastBufferLink := none,
                    mState := State.CREATED, mGroup := none, mUseSharedBuffers := false },
      by simp [stop, hs, hu, hloop], ⟨rfl, rfl, trivial, by simp⟩, rfl, rfl, rfl, rfl,
      by simp, rfl⟩

/-- `start` writes neither the heap nor the chain pointers. -/
theorem start_holds (s : IntelVideoEditorEncoderSource) (sharing : BufferShareStatus)
    (cells : List (Nat × Nat)) (hh : Holds s cells) : Holds (s.start sharing).2 cells := by
  unfold start
  split
  · exact hh
  · split <;> exact hh

/-- A call on a well-formed chain is defined and leaves a well-formed chain. -/
theorem step_holds (s : IntelVideoEditorEncoderSource) (c : Call) (cells : List (Nat × Nat))
    (hh : Holds s cells) : ∃ s1 cells1, step s c = some s1 ∧ Holds s1 cells1 := by
  cases c with
  | start sharing => exact ⟨_, cells, rfl, start_holds s sharing cells hh⟩
  | stop =>
    cases hs : s.mState with
    | CREATED => exact ⟨s, cells, by simp [step, stop, hs], hh⟩
    | STARTED =>
      obtain ⟨s1, hst, hh1, -⟩ := stop_holds s cells hs hh
      exact ⟨s1, [], by simp [step, hst], hh1⟩
  | storeBuffer buffer =>
    cases buffer with
    | none =>
      exact ⟨{ s with mIsEOS := true }, cells, by simp [step, storeBuffer_none_eq], hh⟩
    | some b =>
      obtain ⟨s1, hst, hh1, -⟩ := storeBuffer_some_holds s cells b hh
      exact ⟨s1, _, by simp [step, hst], hh1⟩
  | read buffer =>
    cases hs : s.mState with
    | CREATED =>
      have hne : s.mState ≠ State.STARTED := by simp [hs]
      exact ⟨s, cells, by simp [step, read_of_not_started s buffer hne], hh⟩
    | STARTED =>
      cases cells with
      | nil =>
        have hf : s.mFirstBufferLink = none := by simpa [firstOf] using hh.1
        cases he : s.mIsEOS
        · exact ⟨s, [], by simp [step, read_waiting s buffer hs hf he], hh⟩
        · exact ⟨s, [], by simp [step, read_end_of_stream s buffer hs hf he], hh⟩
      | cons c rest =>
        obtain ⟨s1, hrd, hh1, -⟩ := read_cons_holds s c rest buffer hs hh
        exact ⟨s1, rest, by simp [step, hrd], hh1⟩

/-- Every run from a well-formed chain is defined and ends in a well-formed chain. -/
theorem run_holds (calls : List Call) (s : IntelVideoEditorEncoderSource)
    (cells : List (Nat × Nat)) (hh : Holds s cells) :
    ∃ s1 cells1, run s calls = some s1 ∧ Holds s1 cells1 := by
  induction calls generalizing s cells with
  | nil => exact ⟨s, cells, rfl, hh⟩
  | cons c cs ih =>
    obtain ⟨s1, cells1, hstep, hh1⟩ := step_holds s c cells hh
    obtain ⟨s2, cells2, hrun, hh2⟩ := ih s1 cells1 hh1
    exact ⟨s2, cells2, by simp [run, hstep, hrun], hh2⟩

/-- The chain of a freshly constructed object is empty. -/
theorem Create_holds (format : Nat) : Holds (Create format) [] :=
  ⟨rfl, rfl, trivial, List.nodup_nil⟩

/-- Every reachable state has a well-formed chain. -/
theorem Reachable.holds {s : IntelVideoEditorEncoderSource} (hr : Reachable s) :
    ∃ cells, Holds s cells := by
  obtain ⟨format, calls, hrun⟩ := hr
  obtain ⟨s1, cells1, hrun1, hh1⟩ := run_holds calls (Create format) [] (Create_holds format)
  rw [hrun] at hrun1
  cases hrun1
  exact ⟨cells1, hh1⟩

/-! ## The claims -/

/-- C1 (FIFO). On a started object whose chain holds `cells` (the empty chain included),
after `storeBuffer` of the non-null buffers `bs` in order, the next
`cells.length + bs.length` calls of `read` each return `OK` and deliver the buffers that were
already queued followed by `bs`, in that order, and the chain is empty afterwards. -/
theorem storeBuffer_read_fifo (s : IntelVideoEditorEncoderSource) (cells : List (Nat × Nat))
    (bs : List Nat) (buffer : Option Nat) (hs : s.mState = State.STARTED)
    (hh : Holds s cells) :
    ∃ s1, storeAll s bs = some s1 ∧
      ∃ s2, readN (cells.length + bs.length) s1 buffer =
          some ((cells.map Prod.snd ++ bs).map (fun b => (status_t.OK, some b)), s2) ∧
        Holds s2 [] := by
  obtain ⟨s1, more, hall, hh1, hmore, -, hsame⟩ := storeAll_holds bs s cells hh
  obtain ⟨s2, hrd, hh2, -⟩ := readN_holds (cells ++ more) s1 buffer (hsame.1.trans hs) hh1
  refine ⟨s1, hall, s2, ?_, hh2⟩
  have hlen : more.length = bs.length := by rw [← hmore, List.length_map]
  rw [List.length_append, hlen] at hrd
  rw [hrd, ← hmore]
  simp [List.map_map, Function.comp_def]

/-- Witness of C1: two buffers queued, two more stored, four reads. -/
theorem storeBuffer_read_fifo_witness :
    twoQueued.mState = State.STARTED ∧ Holds twoQueued [(0, 10), (1, 20)] ∧
      ∃ s1, storeAll twoQueued [30, 40] = some s1 ∧
        ∃ s2, readN 4 s1 none =
            some ([(status_t.OK, some 10), (status_t.OK, some 20), (status_t.OK, some 30),
              (status_t.OK, some 40)], s2) ∧
          Holds s2 [] :=
  ⟨by decide, by decide,
    storeBuffer_read_fifo twoQueued [(0, 10), (1, 20)] [30, 40] none (by decide) (by decide)⟩

/-- C2 (end-of-stream drains first). On a started object whose chain holds `cells`, after
`storeBuffer` of the non-null buffers `bs` and then `storeBuffer(NULL)`, the next
`cells.length + bs.length` calls of `read` return `OK` with the queued buffers in order, and
the call after them returns `ERROR_END_OF_STREAM` with `*buffer` set to `NULL`. With no `bs`
this is the drain of a chain of `n` buffers; with an empty chain and one buffer in `bs` it is
publish, publish end-of-stream, take, take. -/
theorem end_of_stream_drains_first (s : IntelVideoEditorEncoderSource)
    (cells : List (Nat × Nat)) (bs : List Nat) (buffer : Option Nat)
    (hs : s.mState = State.STARTED) (hh : Holds s cells) :
    ∃ s1, storeAll s bs = some s1 ∧
      ∃ s2, s1.storeBuffer none = some (s1.mNbBuffer, s2) ∧
        ∃ s3, readN (cells.length + bs.length + 1) s2 buffer =
          some ((cells.map Prod.snd ++ bs).map (fun b => (status_t.OK, some b)) ++
            [(status_t.ERROR_END_OF_STREAM, none)], s3) := by
  obtain ⟨s1, more, hall, hh1, hmore, -, hsame⟩ := storeAll_holds bs s cells hh
  obtain ⟨s3, hrd⟩ := readN_end_of_stream (cells ++ more) { s1 with mIsEOS := true } buffer
    (hsame.1.trans hs) hh1 rfl
  refine ⟨s1, hall, { s1 with mIsEOS := true }, storeBuffer_none_eq s1, s3, ?_⟩
  have hlen : more.length = bs.length := by rw [← hmore, List.length_map]
  rw [List.length_append, hlen] at hrd
  rw [hrd, ← hmore]
  simp [List.map_map, Function.comp_def]

/-- Witness of C2: the chain holds 10 and 20, then 30 and end-of-stream are published. -/
theorem end_of_stream_drains_first_witness :
    twoQueued.mState = State.STARTED ∧ Holds twoQueued [(0, 10), (1, 20)] ∧
      ∃ s1, storeAll twoQueued [30] = some s1 ∧
        ∃ s2, s1.storeBuffer none = some (s1.mNbBuffer, s2) ∧
          ∃ s3, readN 4 s2 (some 7) =
            some ([(status_t.OK, some 10), (status_t.OK, some 20), (status_t.OK, some 30),
              (status_t.ERROR_END_OF_STREAM, none)], s3) :=
  ⟨by decide, by decide,
    end_of_stream_drains_first twoQueued [(0, 10), (1, 20)] [30] (some 7) (by decide)
      (by decide)⟩

/-- C3, the code at the failing input: on a freshly constructed object, which is in state
`CREATED`, `storeBuffer(7)` returns the count 1 and queues the buffer, and
`storeBuffer(NULL)` returns 0 and sets `mIsEOS`; neither call fails, and both write the
object. -/
theorem storeBuffer_in_created_mutates :
    (Create 0).mState = State.CREATED ∧
      (∃ s1, (Create 0).storeBuffer (some 7) = some (1, s1) ∧ Holds s1 [(0, 7)] ∧
        s1.mNbBuffer ≠ (Create 0).mNbBuffer ∧
        s1.mFirstBufferLink ≠ (Create 0).mFirstBufferLink) ∧
      (∃ s1, (Create 0).storeBuffer none = some (0, s1) ∧
        s1.mIsEOS ≠ (Create 0).mIsEOS) := by
  refine ⟨rfl, ⟨_, rfl, by decide, by decide, by decide⟩, ⟨_, rfl, by decide⟩⟩

/-- C4, the code at the failing input: after `start`, `storeBuffer(10)`, `storeBuffer(20)`
and `storeBuffer(NULL)`, `stop` returns `OK` and empties the chain, but `mNbBuffer` is still
2 and `mIsEOS` is still true. -/
theorem stop_keeps_count_and_eos :
    run (Create 0) [Call.start BufferShareStatus.BS_SUCCESS, Call.storeBuffer (some 10),
        Call.storeBuffer (some 20), Call.storeBuffer none] =
        some { twoQueued with mIsEOS := true } ∧
      ∃ s1, stop { twoQueued with mIsEOS := true } = some (status_t.OK, s1) ∧
        s1.mFirstBufferLink = none ∧ s1.mLastBufferLink = none ∧
        s1.mState = State.CREATED ∧ s1.mNbBuffer = 2 ∧ s1.mIsEOS = true := by
  refine ⟨by decide, _, rfl, rfl, rfl, rfl, rfl, rfl⟩

/-- C5, the code at the failing input: after `start`, `storeBuffer(10)` and `stop` the
object is reachable, `mFirstBufferLink` and `mLastBufferLink` are `NULL`, and `mNbBuffer`
is 1. -/
theorem stop_breaks_count_invariant :
    ∃ s, Reachable s ∧ s.mFirstBufferLink = none ∧ s.mLastBufferLink = none ∧
      s.mNbBuffer = 1 ∧ ¬ (s.mFirstBufferLink = none ↔ s.mNbBuffer = 0) ∧
      ¬ (s.mLastBufferLink = none ↔ s.mNbBuffer = 0) := by
  refine ⟨{ Create 0 with heap := [none], mNbBuffer := 1 },
    ⟨0, [Call.start BufferShareStatus.BS_SUCCESS, Call.storeBuffer (some 10), Call.stop],
      by decide⟩, rfl, rfl, rfl, by decide, by decide⟩

/-- C6, the code at the failing input: after `start`, `storeBuffer(10)`, `stop` and `start`
the call `storeBuffer(20)` returns 2, while the chain holds the one buffer 20: one `read`
delivers it and the next one waits. -/
theorem storeBuffer_count_after_restart :
    ∃ s s1, Reachable s ∧ s.storeBuffer (some 20) = some (2, s1) ∧ Holds s1 [(1, 20)] ∧
      (∃ s2, s1.read none = ReadResult.returned status_t.OK (some 20) s2 ∧
        s2.read (some 20) = ReadResult.waiting) := by
  refine ⟨{ Create 0 with heap := [none], mNbBuffer := 1, mState := State.STARTED,
                          mUseSharedBuffers := true }, _,
    ⟨0, [Call.start BufferShareStatus.BS_SUCCESS, Call.storeBuffer (some 10), Call.stop,
      Call.start BufferShareStatus.BS_SUCCESS], by decide⟩, rfl, by decide, _, rfl, rfl⟩

/-- C7, the code at the failing input: when the registry refuses sharing mode, `start` on a
freshly constructed object returns `UNKNOWN_ERROR` with `mState` already `STARTED`; the next
`read` waits, a `read` after `storeBuffer(5)` delivers the buffer, and `requestBuffer`
returns `UNKNOWN_ERROR`. -/
theorem refused_start_leaves_started (format : Nat) (buffer : Option Nat) (r : SharingAnswers)
    (acquire : MediaBufferGroup → status_t × Option MediaBuffer) (slot : Option MediaBuffer) :
    (Create format).start BufferShareStatus.BS_FAILED =
        (status_t.UNKNOWN_ERROR, { Create format with mState := State.STARTED }) ∧
      read { Create format with mState := State.STARTED } buffer = ReadResult.waiting ∧
      (∃ s1 s2, storeBuffer { Create format with mState := State.STARTED } (some 5) =
          some (1, s1) ∧
        s1.read buffer = ReadResult.returned status_t.OK (some 5) s2) ∧
      requestBuffer { Create format with mState := State.STARTED } r acquire slot =
        some (status_t.UNKNOWN_ERROR, slot, { Create format with mState := State.STARTED }) :=
  ⟨rfl, rfl, ⟨_, _, rfl, rfl⟩, rfl⟩

/-- C8. `start` returns `OK` exactly when the state is `CREATED` and the registry grants
sharing mode; then the state is `STARTED`, shared mode is on, the pool is not materialised
and nothing else is written; a `start` in state `STARTED` returns `UNKNOWN_ERROR` and leaves
every field as it was. -/
theorem start_ok_iff (s : IntelVideoEditorEncoderSource) (sharing : BufferShareStatus) :
    ((s.start sharing).1 = status_t.OK ↔
        s.mState = State.CREATED ∧ sharing = BufferShareStatus.BS_SUCCESS) ∧
      ((s.start sharing).1 = status_t.OK →
        (s.start sharing).2 =
          { s with mState := State.STARTED, mUseSharedBuffers := true, mGroup := none }) ∧
      (s.mState = State.STARTED → s.start sharing = (status_t.UNKNOWN_ERROR, s)) := by
  cases hs : s.mState <;> cases sharing <;> simp [start, hs]

/-- Witness of C8: starting the created object succeeds, starting it again fails. -/
theorem start_ok_iff_witness :
    (twoQueuedCreated.start BufferShareStatus.BS_SUCCESS).1 = status_t.OK ∧
      (twoQueuedCreated.start BufferShareStatus.BS_SUCCESS).2 = twoQueued ∧
      twoQueued.start BufferShareStatus.BS_SUCCESS = (status_t.UNKNOWN_ERROR, twoQueued) :=
  ⟨(start_ok_iff twoQueuedCreated BufferShareStatus.BS_SUCCESS).1.mpr ⟨rfl, rfl⟩,
    (start_ok_iff twoQueuedCreated BufferShareStatus.BS_SUCCESS).2.1 (by decide),
    (start_ok_iff twoQueued BufferShareStatus.BS_SUCCESS).2.2 rfl⟩

/-- C9 (restart). On a freshly constructed object with a registry that grants sharing mode,
`start`, `stop`, `start` each return `OK`, and the object ends in state `STARTED` with an
empty chain, `mNbBuffer == 0` and `mIsEOS == false`. -/
theorem start_stop_start (format : Nat) :
    ((Create format).start BufferShareStatus.BS_SUCCESS).1 = status_t.OK ∧
      ∃ s2, ((Create format).start BufferShareStatus.BS_SUCCESS).2.stop =
          some (status_t.OK, s2) ∧
        (s2.start BufferShareStatus.BS_SUCCESS).1 = status_t.OK ∧
        (s2.start BufferShareStatus.BS_SUCCESS).2.mState = State.STARTED ∧
        Holds (s2.start BufferShareStatus.BS_SUCCESS).2 [] ∧
        (s2.start BufferShareStatus.BS_SUCCESS).2.mFirstBufferLink = none ∧
        (s2.start BufferShareStatus.BS_SUCCESS).2.mLastBufferLink = none ∧
        (s2.start BufferShareStatus.BS_SUCCESS).2.mNbBuffer = 0 ∧
        (s2.start BufferShareStatus.BS_SUCCESS).2.mIsEOS = false :=
  ⟨rfl, _, rfl, rfl, rfl, ⟨rfl, rfl, trivial, List.nodup_nil⟩, rfl, rfl, rfl, rfl⟩

/-- C10. In state `CREATED`, whatever the chain, the count and the flag are, `read` returns
`UNKNOWN_ERROR` at once: it writes no buffer to `*buffer` and leaves every field of the
object as it was; this includes the empty chain without end-of-stream, on which the same
call in state `STARTED` waits. -/
theorem read_created_returns_error (s : IntelVideoEditorEncoderSource) (buffer : Option Nat)
    (hs : s.mState = State.CREATED) :
    s.read buffer = ReadResult.returned status_t.UNKNOWN_ERROR buffer s ∧
      (s.mFirstBufferLink = none → s.mIsEOS = false →
        read { s with mState := State.STARTED } buffer = ReadResult.waiting) :=
  ⟨read_of_not_started s buffer (by simp [hs]),
    fun hf he => read_waiting { s with mState := State.STARTED } buffer rfl hf he⟩

/-- Witness of C10: the freshly constructed object, and an object whose chain is not empty. -/
theorem read_created_returns_error_witness :
    (Create 0).mState = State.CREATED ∧
      (Create 0).read none = ReadResult.returned status_t.UNKNOWN_ERROR none (Create 0) ∧
      read { Create 0 with mState := State.STARTED } none = ReadResult.waiting ∧
      twoQueuedCreated.read none =
        ReadResult.returned status_t.UNKNOWN_ERROR none twoQueuedCreated :=
  ⟨rfl, (read_created_returns_error (Create 0) none rfl).1,
    (read_created_returns_error (Create 0) none rfl).2 rfl rfl,
    (read_created_returns_error twoQueuedCreated none rfl).1⟩

/-! ## Sessions, the count and the pool -/

/-- Inside the range of `int32_t` the reduction changes nothing. -/
theorem wrap32_eq_self (x : Int) (hlo : -2147483648 ≤ x) (hhi : x < 2147483648) :
    wrap32 x = x := by
  unfold wrap32
  omega

/-- `start` writes neither `mNbBuffer` nor `mIsEOS`. -/
theorem start_count_eos (s : IntelVideoEditorEncoderSource) (sharing : BufferShareStatus) :
    (s.start sharing).2.mNbBuffer = s.mNbBuffer ∧ (s.start sharing).2.mIsEOS = s.mIsEOS := by
  unfold start
  split
  · exact ⟨rfl, rfl⟩
  · split <;> exact ⟨rfl, rfl⟩

/-- `start` in state `STARTED` changes nothing. -/
theorem start_of_started (s : IntelVideoEditorEncoderSource) (sharing : BufferShareStatus)
    (hs : s.mState = State.STARTED) : s.start sharing = (status_t.UNKNOWN_ERROR, s) := by
  simp [start, hs]

/-- The chain of an object holds one sequence of cells only. -/
theorem linked_unique {h : Heap} (c1 c2 : List (Nat × Nat)) (h1 : linked h c1)
    (h2 : linked h c2) (hf : firstOf c1 = firstOf c2) : c1 = c2 := by
  induction c1 generalizing c2 with
  | nil =>
    exact ((firstOf_eq_none_iff c2).mp hf.symm).symm
  | cons a r1 ih =>
    cases c2 with
    | nil => simp [firstOf] at hf
    | cons b r2 =>
      have hab : a.1 = b.1 := by simpa [firstOf] using hf
      have hd := h1.1
      rw [hab, h2.1] at hd
      have hbuf : b.2 = a.2 := by
        have := congrArg MediaBufferChain.buffer (Option.some.inj hd)
        simpa using this
      have hnext : firstOf r2 = firstOf r1 :=
        congrArg MediaBufferChain.nextLink (Option.some.inj hd)
      have hr : r1 = r2 := ih r2 h1.2 h2.2 hnext.symm
      have hpair : a = b := Prod.ext hab hbuf.symm
      rw [hpair, hr]

theorem Holds.unique {s : IntelVideoEditorEncoderSource} {c1 c2 : List (Nat × Nat)}
    (h1 : Holds s c1) (h2 : Holds s c2) : c1 = c2 :=
  linked_unique c1 c2 h1.2.2.1 h2.2.2.1 (h1.1.symm.trans h2.1)

/-- What a returning `read` does to a well-formed chain: nothing at all, or it takes the
first cell off and writes the reduced `mNbBuffer - 1`. -/
theorem read_returned_cases (s : IntelVideoEditorEncoderSource) (cells : List (Nat × Nat))
    (buffer : Option Nat) (hh : Holds s cells) (err : status_t) (b : Option Nat)
    (s1 : IntelVideoEditorEncoderSource) (hrd : s.read buffer = ReadResult.returned err b s1) :
    s1 = s ∨ ∃ c rest, cells = c :: rest ∧ err = status_t.OK ∧ b = some c.2 ∧ Holds s1 rest ∧
      s1.mNbBuffer = wrap32 (s.mNbBuffer - 1) := by
  cases hs : s.mState with
  | CREATED =>
    rw [read_of_not_started s buffer (by simp [hs])] at hrd
    injection hrd with _ _ h3
    exact Or.inl h3.symm
  | STARTED =>
    cases cells with
    | nil =>
      have hf : s.mFirstBufferLink = none := by simpa [firstOf] using hh.1
      cases he : s.mIsEOS
      · rw [read_waiting s buffer hs hf he] at hrd
        cases hrd
      · rw [read_end_of_stream s buffer hs hf he] at hrd
        injection hrd with _ _ h3
        exact Or.inl h3.symm
    | cons c rest =>
      obtain ⟨s2, hrd2, hh2, hn2, -⟩ := read_cons_holds s c rest buffer hs hh
      rw [hrd2] at hrd
      injection hrd with h1 h2 h3
      subst h3
      exact Or.inr ⟨c, rest, rfl, h1.symm, h2.symm, hh2, hn2⟩

/-- A call other than `stop` on a started, well-formed chain: it is defined, the chain stays
well-formed, the session fields stay, and `mIsEOS` is not taken back. -/
theorem step_session (s : IntelVideoEditorEncoderSource) (c : Call) (cells : List (Nat × Nat))
    (hs : s.mState = State.STARTED) (hh : Holds s cells) (hc : c ≠ Call.stop) :
    ∃ s1 cells1, step s c = some s1 ∧ Holds s1 cells1 ∧ SameSession s s1 ∧
      (s.mIsEOS = true → s1.mIsEOS = true) := by
  cases c with
  | start sharing =>
    exact ⟨s, cells, by simp [step, start_of_started s sharing hs], hh, ⟨rfl, rfl, rfl, rfl⟩,
      fun h => h⟩
  | stop => exact absurd rfl hc
  | storeBuffer buffer =>
    cases buffer with
    | none =>
      exact ⟨{ s with mIsEOS := true }, cells, by simp [step, storeBuffer_none_eq], hh,
        ⟨rfl, rfl, rfl, rfl⟩, fun _ => rfl⟩
    | some b =>
      obtain ⟨s1, hst, hh1, -, he, hsame⟩ := storeBuffer_some_holds s cells b hh
      exact ⟨s1, _, by simp [step, hst], hh1, hsame, fun h => he.trans h⟩
  | read buffer =>
    cases cells with
    | nil =>
      have hf : s.mFirstBufferLink = none := by simpa [firstOf] using hh.1
      cases he : s.mIsEOS
      · exact ⟨s, [], by simp [step, read_waiting s buffer hs hf he], hh, ⟨rfl, rfl, rfl, rfl⟩,
          fun _ => he ▸ ‹_›⟩
      · exact ⟨s, [], by simp [step, read_end_of_stream s buffer hs hf he], hh,
          ⟨rfl, rfl, rfl, rfl⟩, fun _ => he⟩
    | cons c rest =>
      obtain ⟨s1, hrd, hh1, -, he, hsame⟩ := read_cons_holds s c rest buffer hs hh
      exact ⟨s1, rest, by simp [step, hrd], hh1, hsame, fun h => he.trans h⟩

/-- A run without `stop` from a started, well-formed chain stays in the session. -/
theorem run_session (calls : List Call) (s : IntelVideoEditorEncoderSource)
    (cells : List (Nat × Nat)) (hs : s.mState = State.STARTED) (hh : Holds s cells)
    (hc : ∀ c ∈ calls, c ≠ Call.stop) :
    ∃ s1 cells1, run s calls = some s1 ∧ Holds s1 cells1 ∧ SameSession s s1 ∧
      (s.mIsEOS = true → s1.mIsEOS = true) := by
  induction calls generalizing s cells with
  | nil => exact ⟨s, cells, rfl, hh, ⟨rfl, rfl, rfl, rfl⟩, fun h => h⟩
  | cons c cs ih =>
    obtain ⟨s1, cells1, hstep, hh1, hsame1, he1⟩ :=
      step_session s c cells hs hh (hc c (List.mem_cons_self c cs))
    obtain ⟨s2, cells2, hrun, hh2, hsame2, he2⟩ :=
      ih s1 cells1 (hsame1.1.trans hs) hh1 (fun d hd => hc d (List.mem_cons_of_mem c hd))
    exact ⟨s2, cells2, by simp [run, hstep, hrun], hh2, hsame1.trans hsame2,
      fun h => he2 (he1 h)⟩

/-- One call keeps `mNbBuffer` between the length of the chain and the number of calls made
so far, as long as that number stays inside the range of `int32_t`. -/
theorem step_count (s : IntelVideoEditorEncoderSource) (c : Call) (cells : List (Nat × Nat))
    (k : Int) (hh : Holds s cells) (hlo : (cells.length : Int) ≤ s.mNbBuffer)
    (hhi : s.mNbBuffer ≤ k) (hk : k + 1 < 2147483648) :
    ∃ s1 cells1, step s c = some s1 ∧ Holds s1 cells1 ∧
      (cells1.length : Int) ≤ s1.mNbBuffer ∧ s1.mNbBuffer ≤ k + 1 := by
  have hnn : (0 : Int) ≤ cells.length := Int.natCast_nonneg _
  cases c with
  | start sharing =>
    refine ⟨_, cells, rfl, start_holds s sharing cells hh, ?_, ?_⟩
    · rw [(start_count_eos s sharing).1]; exact hlo
    · rw [(start_count_eos s sharing).1]; omega
  | stop =>
    cases hs : s.mState with
    | CREATED => exact ⟨s, cells, by simp [step, stop, hs], hh, hlo, by omega⟩
    | STARTED =>
      obtain ⟨s1, hst, hh1, -, hn, -⟩ := stop_holds s cells hs hh
      refine ⟨s1, [], by simp [step, hst], hh1, ?_, ?_⟩
      · rw [hn]; simp only [List.length_nil, Nat.cast_zero]; omega
      · rw [hn]; omega
  | storeBuffer buffer =>
    cases buffer with
    | none =>
      exact ⟨{ s with mIsEOS := true }, cells, by simp [step, storeBuffer_none_eq], hh, hlo,
        by show s.mNbBuffer ≤ k + 1; omega⟩
    | some b =>
      obtain ⟨s1, hst, hh1, hn, -⟩ := storeBuffer_some_holds s cells b hh
      have hw : wrap32 (s.mNbBuffer + 1) = s.mNbBuffer + 1 :=
        wrap32_eq_self _ (by omega) (by omega)
      refine ⟨s1, _, by simp [step, hst], hh1, ?_, ?_⟩
      · rw [hn, hw]; simp only [List.length_append, List.length_singleton, Nat.cast_add,
          Nat.cast_one]; omega
      · rw [hn, hw]; omega
  | read buffer =>
    cases hrd : s.read buffer with
    | waiting => exact ⟨s, cells, by simp [step, hrd], hh, hlo, by omega⟩
    | undefined =>
      obtain ⟨s1, cells1, hstep, -⟩ := step_holds s (Call.read buffer) cells hh
      simp [step, hrd] at hstep
    | returned err b s1 =>
      rcases read_returned_cases s cells buffer hh err b s1 hrd with heq | ⟨c, rest, hc, -, -,
        hh1, hn⟩
      · subst heq
        exact ⟨s1, cells, by simp [step, hrd], hh, hlo, by omega⟩
      · subst hc
        have hlen : ((c :: rest).length : Int) = (rest.length : Int) + 1 := by simp
        have hw : wrap32 (s.mNbBuffer - 1) = s.mNbBuffer - 1 :=
          wrap32_eq_self _ (by omega) (by omega)
        refine ⟨s1, rest, by simp [step, hrd], hh1, ?_, ?_⟩
        · rw [hn, hw]; omega
        · rw [hn, hw]; omega

/-- A run keeps `mNbBuffer` between the length of the chain and the number of calls made. -/
theorem run_count (calls : List Call) (s : IntelVideoEditorEncoderSource)
    (cells : List (Nat × Nat)) (k : Int) (hh : Holds s cells)
    (hlo : (cells.length : Int) ≤ s.mNbBuffer) (hhi : s.mNbBuffer ≤ k)
    (hk : k + calls.length < 2147483648) :
    ∃ s1 cells1, run s calls = some s1 ∧ Holds s1 cells1 ∧
      (cells1.length : Int) ≤ s1.mNbBuffer ∧ s1.mNbBuffer ≤ k + calls.length := by
  induction calls generalizing s cells k with
  | nil => exact ⟨s, cells, rfl, hh, hlo, by simpa using hhi⟩
  | cons c cs ih =>
    have hlen : ((c :: cs).length : Int) = (cs.length : Int) + 1 := by simp
    have hnn : (0 : Int) ≤ cs.length := Int.natCast_nonneg _
    obtain ⟨s1, cells1, hstep, hh1, hlo1, hhi1⟩ :=
      step_count s c cells k hh hlo hhi (by omega)
    obtain ⟨s2, cells2, hrun, hh2, hlo2, hhi2⟩ := ih s1 cells1 (k + 1) hh1 hlo1 hhi1 (by omega)
    exact ⟨s2, cells2, by simp [run, hstep, hrun], hh2, hlo2, by omega⟩

/-! ## The claims on stop, the session and the count -/

/-- C11. On a well-formed chain `stop` returns `OK` exactly when the state is `STARTED`, the
empty chain without a materialised pool included; in state `CREATED` it returns
`UNKNOWN_ERROR` and leaves every field as it was. -/
theorem stop_ok_iff (s : IntelVideoEditorEncoderSource) (cells : List (Nat × Nat))
    (hh : Holds s cells) :
    ((∃ s1, s.stop = some (status_t.OK, s1)) ↔ s.mState = State.STARTED) ∧
      (s.mState = State.CREATED → s.stop = some (status_t.UNKNOWN_ERROR, s)) := by
  cases hs : s.mState with
  | CREATED =>
    have hst : s.stop = some (status_t.UNKNOWN_ERROR, s) := by simp [stop, hs]
    refine ⟨⟨?_, fun h => by cases h⟩, fun _ => hst⟩
    rintro ⟨s1, h1⟩
    rw [hst] at h1
    cases h1
  | STARTED =>
    obtain ⟨s1, hst, -⟩ := stop_holds s cells hs hh
    exact ⟨⟨fun _ => rfl, fun _ => ⟨s1, hst⟩⟩, fun h => by cases h⟩

/-- Witness of C11: a started object with an empty chain and no pool, a started object
holding two buffers, and the object before `start`. -/
theorem stop_ok_iff_witness :
    Holds justStarted [] ∧ (∃ s1, justStarted.stop = some (status_t.OK, s1)) ∧
      (∃ s1, twoQueued.stop = some (status_t.OK, s1)) ∧
      twoQueuedCreated.stop = some (status_t.UNKNOWN_ERROR, twoQueuedCreated) :=
  ⟨by decide, (stop_ok_iff justStarted [] (by decide)).1.mpr rfl,
    (stop_ok_iff twoQueued [(0, 10), (1, 20)] (by decide)).1.mpr rfl,
    (stop_ok_iff twoQueuedCreated [(0, 10), (1, 20)] (by decide)).2 rfl⟩

/-- C13. From a started, well-formed object on which end-of-stream is set, along every
sequence of `read`, `storeBuffer` and `start` calls (a `start` in state `STARTED` fails),
every state that is passed is defined, still `STARTED`, and has `mIsEOS` true. -/
theorem end_of_stream_stays (s : IntelVideoEditorEncoderSource) (cells : List (Nat × Nat))
    (calls : List Call) (n : Nat) (hs : s.mState = State.STARTED) (hh : Holds s cells)
    (he : s.mIsEOS = true) (hc : ∀ c ∈ calls, c ≠ Call.stop) :
    ∃ s1, run s (calls.take n) = some s1 ∧ s1.mState = State.STARTED ∧ s1.mIsEOS = true := by
  obtain ⟨s1, cells1, hrun, -, hsame, he1⟩ := run_session (calls.take n) s cells hs hh
    (fun c hm => hc c (List.mem_of_mem_take hm))
  exact ⟨s1, hrun, hsame.1.trans hs, he1 he⟩

/-- Witness of C13: end-of-stream on a chain of two buffers, then a read, a failed start, a
store and two more reads, looked at after four of these calls. -/
theorem end_of_stream_stays_witness :
    ∃ s1, run { twoQueued with mIsEOS := true }
        ([Call.read none, Call.start BufferShareStatus.BS_SUCCESS, Call.storeBuffer (some 30),
          Call.read none, Call.read none].take 4) = some s1 ∧
      s1.mState = State.STARTED ∧ s1.mIsEOS = true :=
  end_of_stream_stays { twoQueued with mIsEOS := true } [(0, 10), (1, 20)] _ 4 rfl (by decide)
    rfl (by decide)

/-- C14, the code at the failing input: after `start`, `storeBuffer(10)`, `stop` and `start`
the object is reachable and started with `mNbBuffer == 1` and `mIsEOS == false`, and `read`
waits. -/
theorem read_waits_with_count_one :
    ∃ s, Reachable s ∧ s.mState = State.STARTED ∧ s.mNbBuffer = 1 ∧ s.mIsEOS = false ∧
      s.mFirstBufferLink = none ∧ s.read none = ReadResult.waiting := by
  refine ⟨{ Create 0 with heap := [none], mNbBuffer := 1, mState := State.STARTED,
                          mUseSharedBuffers := true },
    ⟨0, [Call.start BufferShareStatus.BS_SUCCESS, Call.storeBuffer (some 10), Call.stop,
      Call.start BufferShareStatus.BS_SUCCESS], by decide⟩, rfl, rfl, rfl, rfl, rfl⟩

/-- C15. In every state `storeBuffer(NULL)` returns the unchanged `mNbBuffer`, sets `mIsEOS`
and writes nothing else: the heap of links, both chain pointers, the count, the state, the
pool, the shared-mode flag and the format are as before, so the chain holds the same cells
in the same order. -/
theorem storeBuffer_null_frame (s : IntelVideoEditorEncoderSource) :
    ∃ s1, s.storeBuffer none = some (s.mNbBuffer, s1) ∧ s1.mIsEOS = true ∧
      s1.heap = s.heap ∧ s1.mFirstBufferLink = s.mFirstBufferLink ∧
      s1.mLastBufferLink = s.mLastBufferLink ∧ s1.mNbBuffer = s.mNbBuffer ∧
      s1.mState = s.mState ∧ s1.mGroup = s.mGroup ∧
      s1.mUseSharedBuffers = s.mUseSharedBuffers ∧ s1.mEncFormat = s.mEncFormat ∧
      ∀ cells, Holds s1 cells ↔ Holds s cells :=
  ⟨{ s with mIsEOS := true }, rfl, rfl, rfl, rfl, rfl, rfl, rfl, rfl, rfl, rfl,
    fun _ => Iff.rfl⟩

/-- C18. On a started object with an empty chain on which end-of-stream is set,
`storeBuffer(b)` for a non-null `b` queues `b` and returns the count plus one (reduced to
`int32_t`, which changes nothing while the count is in range); the next `read` returns `OK`
with `b` and empties the chain, and the `read` after it returns `ERROR_END_OF_STREAM`
with `*buffer` set to `NULL`. -/
theorem publish_after_end_of_stream (s : IntelVideoEditorEncoderSource) (b : Nat)
    (buffer : Option Nat) (hs : s.mState = State.STARTED) (hh : Holds s [])
    (he : s.mIsEOS = true) :
    ∃ s1, s.storeBuffer (some b) = some (wrap32 (s.mNbBuffer + 1), s1) ∧
      Holds s1 [(s.heap.length, b)] ∧ s1.mNbBuffer = wrap32 (s.mNbBuffer + 1) ∧
      (-2147483649 ≤ s.mNbBuffer → s.mNbBuffer < 2147483647 →
        s1.mNbBuffer = s.mNbBuffer + 1) ∧
      ∃ s2, s1.read buffer = ReadResult.returned status_t.OK (some b) s2 ∧ Holds s2 [] ∧
        s2.read (some b) = ReadResult.returned status_t.ERROR_END_OF_STREAM none s2 := by
  obtain ⟨s1, hst, hh1, hn, he1, hsame1⟩ := storeBuffer_some_holds s [] b hh
  have hs1 : s1.mState = State.STARTED := hsame1.1.trans hs
  obtain ⟨s2, hrd, hh2, -, he2, hsame2⟩ :=
    read_cons_holds s1 (s.heap.length, b) [] buffer hs1 (by simpa using hh1)
  refine ⟨s1, hst, by simpa using hh1, hn, ?_, s2, hrd, hh2, ?_⟩
  · intro hlo hhi
    rw [hn]
    exact wrap32_eq_self _ (by omega) (by omega)
  · exact read_end_of_stream s2 (some b) (hsame2.1.trans hs1)
      (by simpa [firstOf] using hh2.1) (he2.trans (he1.trans he))

/-- Witness of C18: a started object after end-of-stream, then buffer 30 is published. -/
theorem publish_after_end_of_stream_witness :
    ∃ s1, storeBuffer { justStarted with mIsEOS := true } (some 30) =
        some (wrap32 (0 + 1), s1) ∧
      Holds s1 [(0, 30)] ∧ s1.mNbBuffer = wrap32 (0 + 1) ∧
      (-2147483649 ≤ (0 : Int) → (0 : Int) < 2147483647 → s1.mNbBuffer = 0 + 1) ∧
      ∃ s2, s1.read none = ReadResult.returned status_t.OK (some 30) s2 ∧ Holds s2 [] ∧
        s2.read (some 30) = ReadResult.returned status_t.ERROR_END_OF_STREAM none s2 :=
  publish_after_end_of_stream { justStarted with mIsEOS := true } 30 none rfl (by decide) rfl

/-- C19. In every state reached from a freshly constructed object by fewer than `2^31`
calls of `start`, `stop`, `storeBuffer` and `read` (so that `mNbBuffer` cannot wrap around),
`mNbBuffer` is at least the number of links in the chain, hence not negative; and a `read`
that changes `mNbBuffer` has taken the first link off the chain and lowered it by one. -/
theorem count_covers_chain (format : Nat) (calls : List Call)
    (s : IntelVideoEditorEncoderSource) (cells : List (Nat × Nat))
    (hrun : run (Create format) calls = some s) (hlen : calls.length < 2147483648)
    (hh : Holds s cells) :
    (cells.length : Int) ≤ s.mNbBuffer ∧ 0 ≤ s.mNbBuffer ∧
      ∀ buffer err b s1, s.read buffer = ReadResult.returned err b s1 →
        s1.mNbBuffer ≠ s.mNbBuffer →
        ∃ c rest, cells = c :: rest ∧ Holds s1 rest ∧ s1.mNbBuffer = s.mNbBuffer - 1 := by
  have hk : (0 : Int) + calls.length < 2147483648 := by omega
  obtain ⟨s1, cells1, hrun1, hh1, hlo, hhi⟩ :=
    run_count calls (Create format) [] 0 (Create_holds format) (le_refl _) (le_refl _) hk
  rw [hrun] at hrun1
  cases hrun1
  have hcells : cells1 = cells := hh1.unique hh
  subst hcells
  have hnn : (0 : Int) ≤ cells1.length := Int.natCast_nonneg _
  refine ⟨hlo, by omega, ?_⟩
  intro buffer err b s1 hrd hne
  rcases read_returned_cases s cells1 buffer hh err b s1 hrd with heq | ⟨c, rest, hc, -, -,
    hh2, hn⟩
  · exact absurd (by rw [heq]) hne
  · subst hc
    have hlen1 : ((c :: rest).length : Int) = (rest.length : Int) + 1 := by simp
    have hnn1 : (0 : Int) ≤ rest.length := Int.natCast_nonneg _
    refine ⟨c, rest, rfl, hh2, ?_⟩
    rw [hn]
    exact wrap32_eq_self _ (by omega) (by omega)

/-- Witness of C19: after a restart the count is 2 while the chain holds the one buffer 20;
the next `read` takes it off and leaves the count at 1. -/
theorem count_covers_chain_witness :
    run (Create 0) [Call.start BufferShareStatus.BS_SUCCESS, Call.storeBuffer (some 10),
        Call.stop, Call.start BufferShareStatus.BS_SUCCESS, Call.storeBuffer (some 20)] =
        some restartedOne ∧
      Holds restartedOne [(1, 20)] ∧
      (([(1, 20)] : List (Nat × Nat)).length : Int) ≤ restartedOne.mNbBuffer ∧
      0 ≤ restartedOne.mNbBuffer ∧
      ∀ buffer err b s1, restartedOne.read buffer = ReadResult.returned err b s1 →
        s1.mNbBuffer ≠ restartedOne.mNbBuffer →
        ∃ c rest, [(1, 20)] = c :: rest ∧ Holds s1 rest ∧
          s1.mNbBuffer = restartedOne.mNbBuffer - 1 :=
  ⟨by decide, by decide,
    count_covers_chain 0
      [Call.start BufferShareStatus.BS_SUCCESS, Call.storeBuffer (some 10), Call.stop,
        Call.start BufferShareStatus.BS_SUCCESS, Call.storeBuffer (some 20)]
      restartedOne [(1, 20)] (by decide) (by decide) (by decide)⟩

/-! ## The pool -/

/-- The loop of `getSharedBuffers` inside the array: the remaining entries are wrapped and
added in order. -/
theorem addBuffers_eq (bufs : List SharedBufferType) (cnt : Nat) (hcnt : cnt ≤ bufs.length)
    (k : Nat) (g : MediaBufferGroup) (hk : k ≤ cnt) :
    addBuffers bufs cnt k g = some (g ++ ((bufs.take cnt).drop (cnt - k)).map wrapShared) := by
  induction k generalizing g with
  | zero => simp [addBuffers]
  | succ k ih =>
    have hi : cnt - (k + 1) < bufs.length := by omega
    have hi2 : cnt - (k + 1) < (bufs.take cnt).length := by
      rw [List.length_take]; omega
    have hget : bufs[cnt - (k + 1)]? = some bufs[cnt - (k + 1)] := List.getElem?_eq_getElem hi
    have hdrop : (bufs.take cnt).drop (cnt - (k + 1)) =
        bufs[cnt - (k + 1)] :: (bufs.take cnt).drop (cnt - k) := by
      rw [List.drop_eq_getElem_cons hi2, List.getElem_take]
      have : cnt - (k + 1) + 1 = cnt - k := by omega
      rw [this]
    rw [addBuffers, hget]
    simp only []
    rw [ih _ (by omega), hdrop]
    simp [wrapShared]

/-- A handshake whose three calls succeed and report no more entries than the array holds
materialises the reported pool. -/
theorem getSharedBuffers_ok (s : IntelVideoEditorEncoderSource) (r : SharingAnswers)
    (he : r.enter = BufferShareStatus.BS_SUCCESS)
    (hc : r.countCall.1 = BufferShareStatus.BS_SUCCESS)
    (hf : (r.fetchCall r.countCall.2).1 = BufferShareStatus.BS_SUCCESS)
    (hb : (r.fetchCall r.countCall.2).2.1 ≤ (r.fetchCall r.countCall.2).2.2.length) :
    s.getSharedBuffers r = some (status_t.OK, { s with mGroup := some (reportedPool r) }) := by
  have hadd := addBuffers_eq (r.fetchCall r.countCall.2).2.2 (r.fetchCall r.countCall.2).2.1 hb
    (r.fetchCall r.countCall.2).2.1 [] (le_refl _)
  simp only [Nat.sub_self, List.drop_zero, List.nil_append] at hadd
  simp [getSharedBuffers, he, hc, hf, hadd, reportedPool]

/-- A handshake one of whose calls fails returns `UNKNOWN_ERROR` and writes nothing. -/
theorem getSharedBuffers_failed (s : IntelVideoEditorEncoderSource) (r : SharingAnswers)
    (hfail : r.enter ≠ BufferShareStatus.BS_SUCCESS ∨
      r.countCall.1 ≠ BufferShareStatus.BS_SUCCESS ∨
      (r.fetchCall r.countCall.2).1 ≠ BufferShareStatus.BS_SUCCESS) :
    s.getSharedBuffers r = some (status_t.UNKNOWN_ERROR, s) := by
  unfold getSharedBuffers
  by_cases he : r.enter = BufferShareStatus.BS_SUCCESS
  · by_cases hc : r.countCall.1 = BufferShareStatus.BS_SUCCESS
    · have hf : (r.fetchCall r.countCall.2).1 ≠ BufferShareStatus.BS_SUCCESS := by
        rcases hfail with h | h | h
        · exact absurd he h
        · exact absurd hc h
        · exact h
      simp [he, hc, hf]
    · simp [he, hc]
  · simp [he]

/-- With a materialised pool `requestBuffer` asks `acquire_buffer` and nothing else. -/
theorem requestBuffer_of_group (s : IntelVideoEditorEncoderSource) (g : MediaBufferGroup)
    (r : SharingAnswers) (acquire : MediaBufferGroup → status_t × Option MediaBuffer)
    (buffer : Option MediaBuffer) (hg : s.mGroup = some g) :
    s.requestBuffer r acquire buffer =
      some (if (acquire g).1 ≠ status_t.OK then status_t.UNKNOWN_ERROR else status_t.OK,
        (acquire g).2, s) := by
  by_cases ha : (acquire g).1 = status_t.OK <;> simp [requestBuffer, hg, ha]

/-- Without a pool and without shared mode `requestBuffer` returns `UNKNOWN_ERROR`, whatever
the registry would answer, and writes nothing. -/
theorem requestBuffer_of_released (s : IntelVideoEditorEncoderSource) (r : SharingAnswers)
    (acquire : MediaBufferGroup → status_t × Option MediaBuffer) (buffer : Option MediaBuffer)
    (hp : PoolReleased s) :
    s.requestBuffer r acquire buffer = some (status_t.UNKNOWN_ERROR, buffer, s) := by
  simp [requestBuffer, hp.1, hp.2]

/-- The first `requestBuffer` of a session with a successful handshake. -/
theorem requestBuffer_materialises (s : IntelVideoEditorEncoderSource) (r : SharingAnswers)
    (acquire : MediaBufferGroup → status_t × Option MediaBuffer) (buffer : Option MediaBuffer)
    (hg : s.mGroup = none) (hu : s.mUseSharedBuffers = true)
    (he : r.enter = BufferShareStatus.BS_SUCCESS)
    (hc : r.countCall.1 = BufferShareStatus.BS_SUCCESS)
    (hf : (r.fetchCall r.countCall.2).1 = BufferShareStatus.BS_SUCCESS)
    (hb : (r.fetchCall r.countCall.2).2.1 ≤ (r.fetchCall r.countCall.2).2.2.length) :
    s.requestBuffer r acquire buffer =
      some (if (acquire (reportedPool r)).1 ≠ status_t.OK then status_t.UNKNOWN_ERROR
          else status_t.OK,
        (acquire (reportedPool r)).2, { s with mGroup := some (reportedPool r) }) := by
  by_cases ha : (acquire (reportedPool r)).1 = status_t.OK <;>
    simp [requestBuffer, hg, hu, getSharedBuffers_ok s r he hc hf hb, ha]

/-- The first `requestBuffer` of a session with a failing handshake. -/
theorem requestBuffer_handshake_failed (s : IntelVideoEditorEncoderSource)
    (r : SharingAnswers) (acquire : MediaBufferGroup → status_t × Option MediaBuffer)
    (buffer : Option MediaBuffer) (hg : s.mGroup = none) (hu : s.mUseSharedBuffers = true)
    (hfail : r.enter ≠ BufferShareStatus.BS_SUCCESS ∨
      r.countCall.1 ≠ BufferShareStatus.BS_SUCCESS ∨
      (r.fetchCall r.countCall.2).1 ≠ BufferShareStatus.BS_SUCCESS) :
    s.requestBuffer r acquire buffer = some (status_t.UNKNOWN_ERROR, buffer, s) := by
  simp [requestBuffer, hg, hu, getSharedBuffers_failed s r hfail]

/-- What `requestBuffer` leaves behind: the object as it was, or, from the state without a
pool in shared mode, the object with a pool. -/
theorem requestBuffer_state (s : IntelVideoEditorEncoderSource) (r : SharingAnswers)
    (acquire : MediaBufferGroup → status_t × Option MediaBuffer) (buffer : Option MediaBuffer)
    (x : status_t × Option MediaBuffer × IntelVideoEditorEncoderSource)
    (hx : s.requestBuffer r acquire buffer = some x) :
    x.2.2 = s ∨ (s.mUseSharedBuffers = true ∧ ∃ g, x.2.2 = { s with mGroup := some g }) := by
  cases hg : s.mGroup with
  | some g =>
    rw [requestBuffer_of_group s g r acquire buffer hg] at hx
    cases hx
    exact Or.inl rfl
  | none =>
    cases hu : s.mUseSharedBuffers with
    | false =>
      rw [requestBuffer_of_released s r acquire buffer ⟨hg, hu⟩] at hx
      cases hx
      exact Or.inl rfl
    | true =>
      have hsetup : s.requestBuffer r acquire buffer =
          match s.getSharedBuffers r with
          | none => none
          | some (err, s1) =>
            if err ≠ status_t.OK then some (err, buffer, s1)
            else
              match s1.mGroup with
              | none => some (status_t.UNKNOWN_ERROR, buffer, s1)
              | some g =>
                if (acquire g).1 ≠ status_t.OK then
                  some (status_t.UNKNOWN_ERROR, (acquire g).2, s1)
                else some ((acquire g).1, (acquire g).2, s1) := by
        simp [requestBuffer, hg, hu]
      have hshared : ∀ y, s.getSharedBuffers r = some y →
          y.2 = s ∨ ∃ g, y.2 = { s with mGroup := some g } := by
        intro y hy
        unfold getSharedBuffers at hy
        split at hy
        · cases hy; exact Or.inl rfl
        · split at hy
          · cases hy; exact Or.inl rfl
          · simp only [] at hy
            split at hy
            · cases hy; exact Or.inl rfl
            · split at hy
              · cases hy; exact Or.inr ⟨_, rfl⟩
              · cases hy
      rw [hsetup] at hx
      cases hgs : s.getSharedBuffers r with
      | none => rw [hgs] at hx; cases hx
      | some y =>
        obtain ⟨err, s1⟩ := y
        have hs1 := hshared (err, s1) hgs
        rw [hgs] at hx
        simp only [] at hx
        have hx2 : x.2.2 = s1 := by
          split at hx
          · cases hx; rfl
          · split at hx
            · cases hx; rfl
            · split at hx <;> (cases hx; rfl)
        rw [hx2]
        rcases hs1 with h | ⟨g, h⟩
        · exact Or.inl h
        · have h1 : s1 = { s with mGroup := some g } := h
          exact Or.inr ⟨rfl, g, by rw [h1]; simp [hu]⟩

/-- One queue call on a well-formed chain, seen from the pool: a materialised pool still
goes with shared mode, and a released pool stays released unless the call is a `start` that
returns `OK`. -/
theorem step_pool (s : IntelVideoEditorEncoderSource) (c : Call) (cells : List (Nat × Nat))
    (hh : Holds s cells) :
    ∃ s1 cells1, step s c = some s1 ∧ Holds s1 cells1 ∧ (PoolShared s → PoolShared s1) ∧
      (PoolReleased s → (∀ sharing, c = Call.start sharing → (s.start sharing).1 ≠ status_t.OK) →
        PoolReleased s1) := by
  cases c with
  | start sharing =>
    refine ⟨_, cells, rfl, start_holds s sharing cells hh, ?_, ?_⟩
    · intro hp
      cases hs : s.mState <;> cases sharing <;> simp [start, hs, PoolShared] <;> exact hp
    · intro hp hno
      have hne := hno sharing rfl
      cases hs : s.mState <;> cases sharing <;> simp [start, hs] at hne ⊢ <;> exact hp
  | stop =>
    cases hs : s.mState with
    | CREATED =>
      exact ⟨s, cells, by simp [step, stop, hs], hh, fun h => h, fun h _ => h⟩
    | STARTED =>
      obtain ⟨s1, hst, hh1, -, -, -, hu1, hg1, -⟩ := stop_holds s cells hs hh
      have hnone : PoolShared s → s1.mGroup = none := by
        intro hp
        rw [hg1]
        cases hu : s.mUseSharedBuffers
        · cases hg : s.mGroup with
          | none => simp
          | some g =>
            have := hp (by simp [hg])
            rw [hu] at this
            cases this
        · simp
      refine ⟨s1, [], by simp [step, hst], hh1, ?_, ?_⟩
      · intro hp hne
        exact absurd (hnone hp) hne
      · intro hp _
        refine ⟨?_, hu1⟩
        rw [hg1, hp.1]
        simp
  | storeBuffer buffer =>
    cases buffer with
    | none =>
      exact ⟨{ s with mIsEOS := true }, cells, by simp [step, storeBuffer_none_eq], hh,
        fun h => h, fun h _ => h⟩
    | some b =>
      obtain ⟨s1, hst, hh1, -, -, hsame⟩ := storeBuffer_some_holds s cells b hh
      refine ⟨s1, _, by simp [step, hst], hh1, ?_, ?_⟩
      · intro hp hne
        rw [hsame.2.2.1]
        exact hp (by rwa [hsame.2.1] at hne)
      · intro hp _
        exact ⟨hsame.2.1.trans hp.1, hsame.2.2.1.trans hp.2⟩
  | read buffer =>
    cases hrd : s.read buffer with
    | waiting => exact ⟨s, cells, by simp [step, hrd], hh, fun h => h, fun h _ => h⟩
    | undefined =>
      obtain ⟨s1, cells1, hstep, -⟩ := step_holds s (Call.read buffer) cells hh
      simp [step, hrd] at hstep
    | returned err b s1 =>
      cases hs : s.mState with
      | CREATED =>
        rw [read_of_not_started s buffer (by simp [hs])] at hrd
        injection hrd with _ _ h3
        subst h3
        exact ⟨s, cells, by simp [step, read_of_not_started s buffer (by simp [hs])], hh,
          fun h => h, fun h _ => h⟩
      | STARTED =>
        cases cells with
        | nil =>
          rcases read_returned_cases s [] buffer hh err b s1 hrd with heq | ⟨c, rest, hc, -⟩
          · subst heq
            exact ⟨s1, [], by simp [step, hrd], hh, fun h => h, fun h _ => h⟩
          · cases hc
        | cons c rest =>
          obtain ⟨s2, hrd2, hh2, -, -, hsame⟩ := read_cons_holds s c rest buffer hs hh
          refine ⟨s2, rest, by simp [step, hrd2], hh2, ?_, ?_⟩
          · intro hp hne
            rw [hsame.2.2.1]
            exact hp (by rwa [hsame.2.1] at hne)
          · intro hp _
            exact ⟨hsame.2.1.trans hp.1, hsame.2.2.1.trans hp.2⟩

/-- One request on a well-formed chain, seen from the pool. -/
theorem serve_pool (s : IntelVideoEditorEncoderSource) (q : Request) (cells : List (Nat × Nat))
    (s1 : IntelVideoEditorEncoderSource) (hh : Holds s cells) (hserve : serve s q = some s1) :
    ∃ cells1, Holds s1 cells1 ∧ (PoolShared s → PoolShared s1) ∧
      (PoolReleased s →
        (∀ sharing, q = Request.queue (Call.start sharing) →
          (s.start sharing).1 ≠ status_t.OK) →
        PoolReleased s1) := by
  cases q with
  | queue c =>
    obtain ⟨s2, cells2, hstep, hh2, hshared, hrel⟩ := step_pool s c cells hh
    have heq : s2 = s1 := by
      have : step s c = some s1 := hserve
      rw [hstep] at this
      exact Option.some.inj this
    subst heq
    exact ⟨cells2, hh2, hshared, fun hp hno =>
      hrel hp (fun sharing hc => hno sharing (by rw [hc]))⟩
  | requestBuffer r acquire buffer =>
    have hmap : (s.requestBuffer r acquire buffer).map (fun x => x.2.2) = some s1 := hserve
    cases hx : s.requestBuffer r acquire buffer with
    | none => rw [hx] at hmap; cases hmap
    | some x =>
      rw [hx] at hmap
      have hx1 : x.2.2 = s1 := Option.some.inj hmap
      rcases requestBuffer_state s r acquire buffer x hx with h | ⟨hu, g, h⟩
      · have heq : s1 = s := hx1.symm.trans h
        subst heq
        exact ⟨cells, hh, fun hp => hp, fun hp _ => hp⟩
      · have heq : s1 = { s with mGroup := some g } := hx1.symm.trans h
        subst heq
        exact ⟨cells, hh, fun _ _ => hu, fun hp _ => by rw [hp.2] at hu; cases hu⟩

/-- Every sequence of requests keeps the chain well-formed and a materialised pool in shared
mode. -/
theorem serveAll_pool (reqs : List Request) (s : IntelVideoEditorEncoderSource)
    (cells : List (Nat × Nat)) (s2 : IntelVideoEditorEncoderSource) (hh : Holds s cells)
    (hp : PoolShared s) (hrun : serveAll s reqs = some s2) :
    ∃ cells2, Holds s2 cells2 ∧ PoolShared s2 := by
  induction reqs generalizing s cells with
  | nil =>
    have heq : s = s2 := Option.some.inj hrun
    subst heq
    exact ⟨cells, hh, hp⟩
  | cons q qs ih =>
    cases hq : serve s q with
    | none => simp [serveAll, hq] at hrun
    | some s1 =>
      obtain ⟨cells1, hh1, hshared, -⟩ := serve_pool s q cells s1 hh hq
      exact ih s1 cells1 hh1 (hshared hp) (by simpa [serveAll, hq] using hrun)

/-- A released pool stays released along requests among which no `start` returns `OK`. -/
theorem serveAll_released (reqs : List Request) (s : IntelVideoEditorEncoderSource)
    (cells : List (Nat × Nat)) (s2 : IntelVideoEditorEncoderSource) (hh : Holds s cells)
    (hp : PoolReleased s) (hno : noStartReturnsOK s reqs = true)
    (hrun : serveAll s reqs = some s2) : PoolReleased s2 := by
  induction reqs generalizing s cells with
  | nil =>
    have heq : s = s2 := Option.some.inj hrun
    subst heq
    exact hp
  | cons q qs ih =>
    cases hq : serve s q with
    | none => simp [serveAll, hq] at hrun
    | some s1 =>
      obtain ⟨cells1, hh1, -, hrel⟩ := serve_pool s q cells s1 hh hq
      simp only [noStartReturnsOK, hq, Bool.and_eq_true] at hno
      refine ih s1 cells1 hh1 (hrel hp ?_) hno.2 (by simpa [serveAll, hq] using hrun)
      intro sharing hc
      subst hc
      simpa using hno.1

/-! ## The claims on the pool -/

/-- C12. In a session without a pool (shared mode on, `mGroup` `NULL`), when one of the three
registry calls of the handshake fails, `requestBuffer` returns `UNKNOWN_ERROR`, leaves
`*buffer` alone and writes no field, so the pool is still not materialised and shared mode
still on; the next `requestBuffer` runs the whole handshake again and, when it succeeds
this time, materialises the reported pool. -/
theorem failed_handshake_keeps_pool_unmaterialised (s : IntelVideoEditorEncoderSource)
    (r r2 : SharingAnswers) (acquire : MediaBufferGroup → status_t × Option MediaBuffer)
    (buffer : Option MediaBuffer) (hg : s.mGroup = none) (hu : s.mUseSharedBuffers = true)
    (hfail : r.enter ≠ BufferShareStatus.BS_SUCCESS ∨
      r.countCall.1 ≠ BufferShareStatus.BS_SUCCESS ∨
      (r.fetchCall r.countCall.2).1 ≠ BufferShareStatus.BS_SUCCESS) :
    ∃ s1, s.requestBuffer r acquire buffer = some (status_t.UNKNOWN_ERROR, buffer, s1) ∧
      s1 = s ∧ s1.mGroup = none ∧ s1.mUseSharedBuffers = true ∧
      (r2.enter = BufferShareStatus.BS_SUCCESS →
        r2.countCall.1 = BufferShareStatus.BS_SUCCESS →
        (r2.fetchCall r2.countCall.2).1 = BufferShareStatus.BS_SUCCESS →
        (r2.fetchCall r2.countCall.2).2.1 ≤ (r2.fetchCall r2.countCall.2).2.2.length →
        ∃ err b s2, s1.requestBuffer r2 acquire buffer = some (err, b, s2) ∧
          s2.mGroup = some (reportedPool r2)) :=
  ⟨s, requestBuffer_handshake_failed s r acquire buffer hg hu hfail, rfl, hg, hu,
    fun he hc hf hb => ⟨_, _, _, requestBuffer_materialises s r2 acquire buffer hg hu he hc hf hb,
      rfl⟩⟩

/-- Witness of C12: the count query fails on the first `requestBuffer` of a session, the
second one gets two regions. -/
theorem failed_handshake_keeps_pool_unmaterialised_witness :
    justStarted.mGroup = none ∧ justStarted.mUseSharedBuffers = true ∧
      justStarted.requestBuffer countRefused acquireFirst none =
        some (status_t.UNKNOWN_ERROR, none, justStarted) ∧
      ∃ err b s2, justStarted.requestBuffer twoRegions acquireFirst none = some (err, b, s2) ∧
        s2.mGroup = some [{ data := 4096, size := 512 }, { data := 8192, size := 256 }] := by
  obtain ⟨s1, hreq, hs1, -, -, hretry⟩ :=
    failed_handshake_keeps_pool_unmaterialised justStarted countRefused twoRegions acquireFirst
      none rfl rfl (Or.inr (Or.inl (by decide)))
  subst hs1
  exact ⟨rfl, rfl, hreq, hretry rfl rfl rfl (by decide)⟩

/-- C16. In every reachable started state, `requestBuffer` calls included, `stop` returns
`OK` and leaves the pool unmaterialised and shared mode off; and as long as no `start`
returns `OK` afterwards, every `requestBuffer` returns `UNKNOWN_ERROR` whatever the registry
would answer, leaving `*buffer` and the object as they were. -/
theorem stop_releases_pool (format : Nat) (reqs : List Request)
    (s : IntelVideoEditorEncoderSource) (hrun : serveAll (Create format) reqs = some s)
    (hs : s.mState = State.STARTED) :
    ∃ s1, s.stop = some (status_t.OK, s1) ∧ s1.mGroup = none ∧
      s1.mUseSharedBuffers = false ∧
      ∀ later s2, noStartReturnsOK s1 later = true → serveAll s1 later = some s2 →
        s2.mGroup = none ∧ s2.mUseSharedBuffers = false ∧
        ∀ r acquire buffer,
          s2.requestBuffer r acquire buffer = some (status_t.UNKNOWN_ERROR, buffer, s2) := by
  obtain ⟨cells, hh, hp⟩ := serveAll_pool reqs (Create format) [] s (Create_holds format)
    (fun h => absurd rfl h) hrun
  obtain ⟨s1, hst, hh1, -, -, -, hu1, hg1, -⟩ := stop_holds s cells hs hh
  have hnone : s1.mGroup = none := by
    rw [hg1]
    cases hu : s.mUseSharedBuffers
    · cases hg : s.mGroup with
      | none => simp
      | some g =>
        have := hp (by simp [hg])
        rw [hu] at this
        cases this
    · simp
  refine ⟨s1, hst, hnone, hu1, ?_⟩
  intro later s2 hno hlater
  have hrel := serveAll_released later s1 [] s2 hh1 ⟨hnone, hu1⟩ hno hlater
  exact ⟨hrel.1, hrel.2, fun r acquire buffer =>
    requestBuffer_of_released s2 r acquire buffer hrel⟩

/-- Witness of C16: a session with a materialised pool and one queued buffer is stopped;
after a refused `start` and a `storeBuffer`, `requestBuffer` fails although the registry
would answer the handshake. -/
theorem stop_releases_pool_witness :
    serveAll (Create 0) [Request.queue (Call.start BufferShareStatus.BS_SUCCESS),
        Request.requestBuffer twoRegions acquireFirst none,
        Request.queue (Call.storeBuffer (some 10))] = some pooledOne ∧
      pooledOne.mState = State.STARTED ∧
      ∃ s1, pooledOne.stop = some (status_t.OK, s1) ∧ s1.mGroup = none ∧
        s1.mUseSharedBuffers = false ∧
        ∃ s2, serveAll s1 [Request.queue (Call.start BufferShareStatus.BS_FAILED),
            Request.queue (Call.storeBuffer (some 5))] = some s2 ∧
          s2.requestBuffer twoRegions acquireFirst none =
            some (status_t.UNKNOWN_ERROR, none, s2) := by
  obtain ⟨s1, hst, hg, hu, hlater⟩ :=
    stop_releases_pool 0 [Request.queue (Call.start BufferShareStatus.BS_SUCCESS),
      Request.requestBuffer twoRegions acquireFirst none,
      Request.queue (Call.storeBuffer (some 10))] pooledOne (by decide) rfl
  have hs1 : s1 = pooledOneStopped := by
    have hst2 : pooledOne.stop = some (status_t.OK, pooledOneStopped) := by decide
    rw [hst2] at hst
    exact (congrArg Prod.snd (Option.some.inj hst)).symm
  subst hs1
  refine ⟨by decide, rfl, _, hst, hg, hu, _, rfl, ?_⟩
  exact (hlater [Request.queue (Call.start BufferShareStatus.BS_FAILED),
    Request.queue (Call.storeBuffer (some 5))] _ (by decide) rfl).2.2 twoRegions acquireFirst
    none

/-- C17. In a started session without a pool (what a successful `start` leaves), the first
`requestBuffer` whose handshake succeeds materialises the pool with one wrapper per entry
the registry reports, in the registry's order, each with the entry's address and size, and
then asks `acquire_buffer`; after any `read`, `storeBuffer` and `start` calls of the same
session the pool is the same, and every later `requestBuffer` asks `acquire_buffer` on it
and leaves the object as it is, whatever the registry would answer. -/
theorem requestBuffer_materialises_once (s : IntelVideoEditorEncoderSource)
    (cells : List (Nat × Nat)) (r : SharingAnswers)
    (acquire : MediaBufferGroup → status_t × Option MediaBuffer) (buffer : Option MediaBuffer)
    (calls : List Call) (hs : s.mState = State.STARTED) (hh : Holds s cells)
    (hg : s.mGroup = none) (hu : s.mUseSharedBuffers = true)
    (he : r.enter = BufferShareStatus.BS_SUCCESS)
    (hc : r.countCall.1 = BufferShareStatus.BS_SUCCESS)
    (hf : (r.fetchCall r.countCall.2).1 = BufferShareStatus.BS_SUCCESS)
    (hb : (r.fetchCall r.countCall.2).2.1 ≤ (r.fetchCall r.countCall.2).2.2.length)
    (hcalls : ∀ c ∈ calls, c ≠ Call.stop) :
    s.requestBuffer r acquire buffer =
        some (if (acquire (reportedPool r)).1 ≠ status_t.OK then status_t.UNKNOWN_ERROR
            else status_t.OK,
          (acquire (reportedPool r)).2, { s with mGroup := some (reportedPool r) }) ∧
      (reportedPool r).length = (r.fetchCall r.countCall.2).2.1 ∧
      ∃ s2, run { s with mGroup := some (reportedPool r) } calls = some s2 ∧
        s2.mGroup = some (reportedPool r) ∧
        ∀ r2 acquire2 buffer2, s2.requestBuffer r2 acquire2 buffer2 =
          some (if (acquire2 (reportedPool r)).1 ≠ status_t.OK then status_t.UNKNOWN_ERROR
              else status_t.OK,
            (acquire2 (reportedPool r)).2, s2) := by
  obtain ⟨s2, cells2, hrun, -, hsame, -⟩ :=
    run_session calls { s with mGroup := some (reportedPool r) } cells hs hh hcalls
  have hg2 : s2.mGroup = some (reportedPool r) := hsame.2.1
  refine ⟨requestBuffer_materialises s r acquire buffer hg hu he hc hf hb, ?_, s2, hrun, hg2,
    fun r2 acquire2 buffer2 => requestBuffer_of_group s2 _ r2 acquire2 buffer2 hg2⟩
  simp [reportedPool, hb]

/-- Witness of C17: the registry reports two regions on the first `requestBuffer`; after a
`storeBuffer` and a `read` the next `requestBuffer` draws from the same two wrappers although
the registry would now refuse. -/
theorem requestBuffer_materialises_once_witness :
    justStarted.requestBuffer twoRegions acquireFirst none =
        some (status_t.OK, some { data := 4096, size := 512 },
          { justStarted with
            mGroup := some [{ data := 4096, size := 512 }, { data := 8192, size := 256 }] }) ∧
      ∃ s2, run { justStarted with mGroup := some (reportedPool twoRegions) }
          [Call.storeBuffer (some 10), Call.read none] = some s2 ∧
        s2.requestBuffer countRefused acquireFirst none =
          some (status_t.OK, some { data := 4096, size := 512 }, s2) := by
  obtain ⟨hfirst, -, s2, hrun, -, hlater⟩ :=
    requestBuffer_materialises_once justStarted [] twoRegions acquireFirst none
      [Call.storeBuffer (some 10), Call.read none] rfl (by decide) rfl rfl rfl rfl rfl
      (by decide) (by decide)
  exact ⟨hfirst, s2, hrun, hlater countRefused acquireFirst none⟩

end IntelVideoEditorEncoderSource

end android
